import Mathlib

/-!
Verification of the job-scheduling / GPU-reservation subsystem and the
TensorBoard multiplexing dispatcher of the `aurora_boreale` repository.

The definitions below are a shallow embedding of the Python source:
* `src/src/dashboard/routers/runs.py` (`create_run_from_config`,
  `cancel_run`, `finish_run`),
* `src/src/agent/repositories/run_repository.py` (`get_next_queued_run`,
  `_update_run_state`),
* `src/src/agent/services/agent_manager.py` (`_on_training_progress`,
  `_calculate_eta`),
* `src/dashboard_api/tensorboard.py` (handler cache, heartbeat, idle
  sweeper, WSGI dispatcher).

Database rows become Lean structures holding the fields the claims are
about; SQLAlchemy sessions become explicit state passing, where a commit
makes the new state the current one and an HTTP-exception raised before
commit leaves the durable state untouched (session rollback on close).
Timestamps are naturals, `datetime.now` becomes an explicit `now`
argument.  Fallible endpoints return `Except`.
-/

namespace Aurora

/-- Run lifecycle states, the string values of `Run.state` in
`shared/database/models.py`. -/
inductive RunState
  | queued | running | succeeded | failed | canceled
deriving DecidableEq

/-- The terminal states, the set `{"succeeded", "failed", "canceled"}`
tested in `cancel_run` and `_update_run_state`. -/
def RunState.isTerminal : RunState → Bool
  | .succeeded => true
  | .failed => true
  | .canceled => true
  | _ => false

/-- A row of the `runs` table, restricted to the fields the scheduling and
allocation code reads or writes (id, state, agent, GPU set, timestamps). -/
structure RunRow where
  id : Nat
  state : RunState
  agentId : Option Nat
  gpuIndices : List Nat
  startedAt : Option Nat
  finishedAt : Option Nat
deriving DecidableEq

/-- A row of the `jobs` table, restricted to the fields used by the
dequeue logic. -/
structure JobRow where
  id : Nat
  runId : Nat
  priority : Int
  enqueuedAt : Nat
  dequeuedAt : Option Nat
deriving DecidableEq

/-- A row of the `gpus` table: composite key (agent id, index) plus the
allocation flag. -/
structure GpuRow where
  agentId : Nat
  index : Nat
  isAllocated : Bool
deriving DecidableEq

/-- The durable store: the `runs`, `jobs` and `gpus` tables. -/
structure Store where
  runs : List RunRow
  jobs : List JobRow
  gpus : List GpuRow
deriving DecidableEq

/-- The filter `GPU.agent_id == a, GPU.index == i` used at every GPU
lookup site. -/
def gpuKey (g : GpuRow) (a i : Nat) : Bool :=
  g.agentId = a ∧ g.index = i

/-- `db.query(GPU).filter(agent_id == a, index == i).first()`. -/
def findGpu (gs : List GpuRow) (a i : Nat) : Option GpuRow :=
  gs.find? (fun g => gpuKey g a i)

/-- Mutating the ORM object returned by `.first()`: update the allocation
flag of the first row with key `(a, i)`. -/
def setAllocFirst (gs : List GpuRow) (a i : Nat) (b : Bool) : List GpuRow :=
  match gs with
  | [] => []
  | g :: rest =>
    if gpuKey g a i then { g with isAllocated := b } :: rest
    else g :: setAllocFirst rest a i b

/-- Whether the GPU row `(a, i)` exists and its allocation flag is set. -/
def gpuAllocated (gs : List GpuRow) (a i : Nat) : Bool :=
  match findGpu gs a i with
  | some g => g.isAllocated
  | none => false

/-- The error responses of `create_run_from_config`: HTTP 400 when
`gpu_indices` come without an `agent_id`, HTTP 400 "GPU index not found on
agent", HTTP 409 "GPU already allocated". -/
inductive CreateError
  | missingAgent
  | gpuNotFound (idx : Nat)
  | gpuConflict (idx : Nat)
deriving DecidableEq

/-- The GPU-validation loop of `create_run_from_config` (runs.py lines
52-64): for each requested index, look the row up, fail 400 if absent,
fail 409 if allocated, else mark it allocated in the session.  The
threaded list is the session state; an error propagates before any commit,
so the caller keeps the original store (rollback). -/
def reserveGpus (gs : List GpuRow) (a : Nat) : List Nat → Except CreateError (List GpuRow)
  | [] => .ok gs
  | i :: rest =>
    match findGpu gs a i with
    | none => .error (.gpuNotFound i)
    | some g =>
      if g.isAllocated then .error (.gpuConflict i)
      else reserveGpus (setAllocFirst gs a i true) a rest

/-- `POST /runs/from-config/{config_id}` (runs.py lines 41-127), the parts
acting on runs, jobs and GPUs: validate and reserve the requested GPUs,
then insert a `queued` Run and its Job (priority from the payload,
`enqueued_at` defaulting to now).  Config lookup and log-path handling do
not touch these tables and are outside the model. -/
def create_run_from_config (st : Store) (runId jobId : Nat) (agentId : Option Nat)
    (gpuIndices : List Nat) (priority : Int) (now : Nat) : Except CreateError Store :=
  if gpuIndices ≠ [] ∧ agentId = none then .error .missingAgent
  else
    let gpusE : Except CreateError (List GpuRow) :=
      match agentId with
      | some a => if gpuIndices ≠ [] then reserveGpus st.gpus a gpuIndices else .ok st.gpus
      | none => .ok st.gpus
    match gpusE with
    | .error e => .error e
    | .ok gpus' =>
      .ok { runs := st.runs ++ [⟨runId, .queued, agentId, gpuIndices, none, none⟩],
            jobs := st.jobs ++ [⟨jobId, runId, priority, now, none⟩],
            gpus := gpus' }

/-- `ORDER BY priority DESC, enqueued_at ASC`: `a` sorts strictly before
`b`. -/
def jobMoreUrgent (a b : JobRow) : Bool :=
  a.priority > b.priority ∨ (a.priority = b.priority ∧ a.enqueuedAt < b.enqueuedAt)

/-- One comparison step of the ordered selection: keep the better of the
current best and the next row. -/
def chooseBetter (acc : Option JobRow) (j : JobRow) : Option JobRow :=
  match acc with
  | none => some j
  | some b => if jobMoreUrgent j b then some j else some b

/-- `.first()` of the ordered query: the job sorting first under
`jobMoreUrgent` (earliest row wins ties, determinising the database's
choice among fully tied rows). -/
def firstByOrder (js : List JobRow) : Option JobRow :=
  js.foldl chooseBetter none

/-- `db.get(Run, run_id)` by primary key. -/
def findRun (rs : List RunRow) (rid : Nat) : Option RunRow :=
  rs.find? (fun r => r.id = rid)

/-- The join filter of `get_next_queued_run`: the job's run exists, is
`queued`, and is assigned to the polling agent. -/
def eligibleJob (st : Store) (aid : Nat) (j : JobRow) : Bool :=
  match findRun st.runs j.runId with
  | some r => r.state = .queued ∧ r.agentId = some aid
  | none => false

/-- Update (the first occurrence of) the run with primary key `rid`, the
model of mutating the ORM object returned by `db.get`. -/
def updateRunFirst (rs : List RunRow) (rid : Nat) (f : RunRow → RunRow) : List RunRow :=
  match rs with
  | [] => []
  | r :: rest => if r.id = rid then f r :: rest else r :: updateRunFirst rest rid f

/-- Same for jobs, keyed by the job's primary key. -/
def updateJobFirst (js : List JobRow) (jid : Nat) (f : JobRow → JobRow) : List JobRow :=
  match js with
  | [] => []
  | j :: rest => if j.id = jid then f j :: rest else j :: updateJobFirst rest jid f

/-- The claim result handed to the agent loop: the fields of `RunContext`
the scheduling claims are about. -/
structure RunContext where
  runId : Nat
  gpuIndices : List Nat
deriving DecidableEq

/-- The read phase of `RunRepository.get_next_queued_run`
(run_repository.py lines 31-45): the `SELECT` joining jobs and runs,
filtered to `state == "queued"` with matching agent, ordered by priority
descending then `enqueued_at` ascending, `.first()`. -/
def claimRead (st : Store) (aid : Nat) : Option JobRow :=
  firstByOrder (st.jobs.filter (eligibleJob st aid))

/-- The write phase of `get_next_queued_run` (run_repository.py lines
50-73): mark the selected job's run `running` with `started_at`, stamp the
job's `dequeued_at`, commit, and build the returned context.  The write is
unconditional — it does not re-check that the run is still `queued`. -/
def claimWrite (st : Store) (j : JobRow) (now : Nat) :
    Option (Store × RunContext) :=
  match findRun st.runs j.runId with
  | none => none
  | some r =>
    some ({ runs := updateRunFirst st.runs j.runId
              (fun x => { x with state := .running, startedAt := some now }),
            jobs := updateJobFirst st.jobs j.id
              (fun x => { x with dequeuedAt := some now }),
            gpus := st.gpus },
          ⟨r.id, r.gpuIndices⟩)

/-- `RunRepository.get_next_queued_run` (run_repository.py lines 24-73):
the read phase followed by the write phase; `None` when no row matches. -/
def get_next_queued_run (st : Store) (aid : Nat) (now : Nat) :
    Option (Store × RunContext) :=
  match claimRead st aid with
  | none => none
  | some j => claimWrite st j now

/-- The GPU-release loop shared by `cancel_run`, `finish_run`,
`mark_run_failed` and `_update_run_state`: for each index, look the row up
and clear its flag; a missing row is skipped. -/
def releaseGpus (gs : List GpuRow) (a : Nat) : List Nat → List GpuRow
  | [] => gs
  | i :: rest =>
    match findGpu gs a i with
    | none => releaseGpus gs a rest
    | some _ => releaseGpus (setAllocFirst gs a i false) a rest

/-- `if run.agent_id and run.gpu_indices: <release loop>` guarding every
release site (truthiness: `None` agent or empty list skips). -/
def releaseRunGpus (gs : List GpuRow) (r : RunRow) : List GpuRow :=
  match r.agentId, r.gpuIndices with
  | some a, _ :: _ => releaseGpus gs a r.gpuIndices
  | _, _ => gs

/-- HTTP 404 of the run-by-id endpoints. -/
inductive ApiError
  | notFound
deriving DecidableEq

/-- `POST /runs/{run_id}/cancel` (runs.py lines 130-162): 404 when the run
is unknown; terminal runs are returned unchanged with their current state;
otherwise the run becomes `canceled` with `finished_at = now`, its GPUs
are released, and the new state is returned. -/
def cancel_run (st : Store) (rid : Nat) (now : Nat) :
    Except ApiError (Store × RunState) :=
  match findRun st.runs rid with
  | none => .error .notFound
  | some r =>
    if r.state.isTerminal then .ok (st, r.state)
    else
      .ok ({ runs := updateRunFirst st.runs rid
               (fun x => { x with state := .canceled, finishedAt := some now }),
             jobs := st.jobs,
             gpus := releaseRunGpus st.gpus r },
           .canceled)

/-- `POST /runs/{run_id}/finish` (runs.py lines 188-217): 404 when the run
is unknown; otherwise, with no check of the current state, set the run to
`succeeded` or `failed` with `finished_at = now`, release its GPUs, and
return the new state. -/
def finish_run (st : Store) (rid : Nat) (success : Bool) (now : Nat) :
    Except ApiError (Store × RunState) :=
  match findRun st.runs rid with
  | none => .error .notFound
  | some r =>
    let s : RunState := if success then .succeeded else .failed
    .ok ({ runs := updateRunFirst st.runs rid
             (fun x => { x with state := s, finishedAt := some now }),
           jobs := st.jobs,
           gpus := if s.isTerminal then releaseRunGpus st.gpus r else st.gpus },
         s)

/-- `RunRepository._update_run_state` (run_repository.py lines 133-161):
`False` when the run is unknown; otherwise set the new state and
`finished_at`, release the run's GPUs when the new state is terminal, and
return `True`.  `mark_run_canceled` and `mark_run_succeeded` call this;
`mark_run_failed` performs the same run/GPU writes with `state="failed"`. -/
def update_run_state (st : Store) (rid : Nat) (s : RunState) (now : Nat) :
    Store × Bool :=
  match findRun st.runs rid with
  | none => (st, false)
  | some r =>
    ({ runs := updateRunFirst st.runs rid
         (fun x => { x with state := s, finishedAt := some now }),
       jobs := st.jobs,
       gpus := if s.isTerminal then releaseRunGpus st.gpus r else st.gpus },
     true)

/-! ### Reachable stores and the allocation invariant -/

/-- The stores reachable from an empty system (no runs or jobs yet, a GPU
inventory with every allocation flag clear) by the operations the
invariant claim ranges over: Run+Job creation with its GPU reservation,
queue claiming, and the terminal-state transitions with GPU release
(dashboard `cancel`/`finish` endpoints and the agent repository's
`_update_run_state`, invoked with a terminal target state by
`mark_run_canceled` / `mark_run_succeeded` / `mark_run_failed`).  Fresh
primary keys stand for `uuid4`. -/
inductive Reachable : Store → Prop
  | init (gpus0 : List GpuRow) (hfree : ∀ g ∈ gpus0, g.isAllocated = false) :
      Reachable { runs := [], jobs := [], gpus := gpus0 }
  | create {st st' : Store} (runId jobId : Nat) (agentId : Option Nat)
      (gpuIndices : List Nat) (priority : Int) (now : Nat)
      (hst : Reachable st)
      (hfresh : ∀ r ∈ st.runs, r.id ≠ runId)
      (hok : create_run_from_config st runId jobId agentId gpuIndices priority now
        = .ok st') : Reachable st'
  | claim {st st' : Store} {ctx : RunContext} (aid now : Nat)
      (hst : Reachable st)
      (hok : get_next_queued_run st aid now = some (st', ctx)) : Reachable st'
  | cancel {st st' : Store} {s : RunState} (rid now : Nat)
      (hst : Reachable st)
      (hok : cancel_run st rid now = .ok (st', s)) : Reachable st'
  | finish {st st' : Store} {s : RunState} (rid : Nat) (success : Bool) (now : Nat)
      (hst : Reachable st)
      (hok : finish_run st rid success now = .ok (st', s)) : Reachable st'
  | markState {st st' : Store} (rid : Nat) (s : RunState) (now : Nat)
      (hst : Reachable st)
      (hterm : s.isTerminal = true)
      (hok : update_run_state st rid s now = (st', true)) : Reachable st'

/-- Like `Reachable`, but every terminal-state transition is applied only
to a run that is not already terminal (the guard `cancel_run` has and
`finish_run` / `_update_run_state` lack). -/
inductive ReachableGuarded : Store → Prop
  | init (gpus0 : List GpuRow) (hfree : ∀ g ∈ gpus0, g.isAllocated = false) :
      ReachableGuarded { runs := [], jobs := [], gpus := gpus0 }
  | create {st st' : Store} (runId jobId : Nat) (agentId : Option Nat)
      (gpuIndices : List Nat) (priority : Int) (now : Nat)
      (hst : ReachableGuarded st)
      (hfresh : ∀ r ∈ st.runs, r.id ≠ runId)
      (hok : create_run_from_config st runId jobId agentId gpuIndices priority now
        = .ok st') : ReachableGuarded st'
  | claim {st st' : Store} {ctx : RunContext} (aid now : Nat)
      (hst : ReachableGuarded st)
      (hok : get_next_queued_run st aid now = some (st', ctx)) : ReachableGuarded st'
  | cancel {st st' : Store} {s : RunState} (rid now : Nat)
      (hst : ReachableGuarded st)
      (hok : cancel_run st rid now = .ok (st', s)) : ReachableGuarded st'
  | finish {st st' : Store} {s : RunState} (rid : Nat) (success : Bool) (now : Nat)
      (hst : ReachableGuarded st)
      (hnt : ∀ r, findRun st.runs rid = some r → r.state.isTerminal = false)
      (hok : finish_run st rid success now = .ok (st', s)) : ReachableGuarded st'
  | markState {st st' : Store} (rid : Nat) (s : RunState) (now : Nat)
      (hst : ReachableGuarded st)
      (hterm : s.isTerminal = true)
      (hnt : ∀ r, findRun st.runs rid = some r → r.state.isTerminal = false)
      (hok : update_run_state st rid s now = (st', true)) : ReachableGuarded st'

/-- Run `r` holds GPU `(a, i)` allocated: it is non-terminal, assigned to
agent `a`, lists index `i`, and the GPU row's flag is set. -/
def holdsAllocated (st : Store) (r : RunRow) (a i : Nat) : Prop :=
  r.state.isTerminal = false ∧ r.agentId = some a ∧ i ∈ r.gpuIndices ∧
    gpuAllocated st.gpus a i = true

/-- The claimed invariant: for every GPU, at most one non-terminal run
holds it allocated. -/
def AtMostOneHolder (st : Store) : Prop :=
  ∀ a i r1 r2, r1 ∈ st.runs → r2 ∈ st.runs →
    holdsAllocated st r1 a i → holdsAllocated st r2 a i → r1.id = r2.id

/-- Every non-terminal run's GPU indices are backed by existing rows of
its agent with the allocation flag set. -/
def RunsOk (rs : List RunRow) (gs : List GpuRow) : Prop :=
  ∀ r ∈ rs, r.state.isTerminal = false → ∀ i ∈ r.gpuIndices,
    ∃ a, r.agentId = some a ∧ gpuAllocated gs a i = true

/-- Two different non-terminal runs of the same agent never list a common
GPU index. -/
def DisjointRuns (rs : List RunRow) : Prop :=
  ∀ r1 ∈ rs, ∀ r2 ∈ rs, r1.id ≠ r2.id →
    r1.state.isTerminal = false → r2.state.isTerminal = false →
    ∀ a i, r1.agentId = some a → r2.agentId = some a →
      i ∈ r1.gpuIndices → i ∈ r2.gpuIndices → False

/-- The inductive invariant. -/
def Inv (st : Store) : Prop :=
  (st.runs.map RunRow.id).Nodup ∧ RunsOk st.runs st.gpus ∧ DisjointRuns st.runs

/-! ### Progress tracker (`agent_manager.py`) -/

/-- The epoch-progress fields of `AgentManager` guarded by its lock.
Durations and averages are Python floats, embedded as rationals. -/
structure ProgressState where
  currentEpoch : Option Nat
  totalEpochs : Option Nat
  avgEpochTime : Option ℚ
deriving DecidableEq

/-- `_initialize_run_state`: epoch counter 0, total and average unset. -/
def initialProgressState : ProgressState :=
  { currentEpoch := some 0, totalEpochs := none, avgEpochTime := none }

/-- `AgentManager._on_training_progress` (agent_manager.py lines 188-207),
the tracked-state update: record epoch and total, and fold the duration
into the average — first sample taken as-is, later samples by
`0.7 * avg + 0.3 * duration`. -/
def on_training_progress (s : ProgressState) (epoch totalEpochs : Nat)
    (duration : ℚ) : ProgressState :=
  { currentEpoch := some epoch,
    totalEpochs := some totalEpochs,
    avgEpochTime := some (match s.avgEpochTime with
      | none => duration
      | some avg => 7/10 * avg + 3/10 * duration) }

/-- `AgentManager._calculate_eta` (agent_manager.py lines 226-232).  The
Python guard `if not (self._avg_epoch_time and self._current_epoch is not
None and self._total_epochs)` treats a zero average and a zero
total-epochs count as falsy, so those also yield `None`;
`remaining = max(0, total - (epoch + 1))` and the result is
`remaining * avg`. -/
def calculate_eta (s : ProgressState) : Option ℚ :=
  match s.avgEpochTime, s.currentEpoch, s.totalEpochs with
  | some avg, some e, some t =>
    if avg = 0 ∨ t = 0 then none
    else some ((max 0 ((t : ℤ) - ((e : ℤ) + 1)) : ℤ) * avg)
  | _, _, _ => none

/-! ### TensorBoard handler cache and idle sweeper
(`dashboard_api/tensorboard.py`) -/

/-- Python dict lookup on an association list (first binding wins). -/
def alGet {α : Type} (l : List (String × α)) (k : String) : Option α :=
  (l.find? (fun p => p.1 = k)).map (fun p => p.2)

/-- Python dict assignment: replace the first binding of `k`, or append a
new one. -/
def alSet {α : Type} (l : List (String × α)) (k : String) (v : α) :
    List (String × α) :=
  match l with
  | [] => [(k, v)]
  | p :: rest => if p.1 = k then (k, v) :: rest else p :: alSet rest k v

/-- Python `dict.pop(k, None)`: drop the bindings of `k`. -/
def alRemove {α : Type} (l : List (String × α)) (k : String) :
    List (String × α) :=
  l.filter (fun p => p.1 ≠ k)

/-- The module-level mutable state of `dashboard_api/tensorboard.py`:
`_apps`, `_app_logdirs`, `_app_ingesters` and `_last_ping`, all guarded by
`_lock`.  WSGI apps and ingesters are identified by tokens drawn from
`nextToken`; `stopped` records the ingesters whose background reload loop
the sweeper has signalled to stop (`_reload_interval = 0`). -/
structure TBState where
  apps : List (String × Nat)
  appLogdirs : List (String × String)
  appIngesters : List (String × Nat)
  lastPing : List (String × Int)
  nextToken : Nat
  stopped : List Nat
deriving DecidableEq

/-- `get_or_create_tb_app` (tensorboard.py lines 111-131): reuse the
cached app when its recorded logdir matches, otherwise build a fresh app
(with its data ingester) and cache all three records.  `_last_ping` is not
touched — serving traffic is not liveness. -/
def get_or_create_tb_app (st : TBState) (rid : String) (logdir : String) :
    TBState × Nat :=
  match alGet st.apps rid with
  | some app =>
    if alGet st.appLogdirs rid = some logdir then (st, app)
    else
      ({ st with
          apps := alSet st.apps rid st.nextToken,
          appLogdirs := alSet st.appLogdirs rid logdir,
          appIngesters := alSet st.appIngesters rid st.nextToken,
          nextToken := st.nextToken + 1 },
       st.nextToken)
  | none =>
    ({ st with
        apps := alSet st.apps rid st.nextToken,
        appLogdirs := alSet st.appLogdirs rid logdir,
        appIngesters := alSet st.appIngesters rid st.nextToken,
        nextToken := st.nextToken + 1 },
     st.nextToken)

/-- `record_heartbeat` (tensorboard.py lines 134-140): stamp `_last_ping`
for the run id; nothing else changes. -/
def record_heartbeat (st : TBState) (rid : String) (now : Int) : TBState :=
  { st with lastPing := alSet st.lastPing rid now }

/-- One eviction of the sweeper body: when the id is cached, pop and
signal its ingester and drop the app and logdir records; the heartbeat
record is dropped unconditionally. -/
def evictOne (st : TBState) (rid : String) : TBState :=
  let st1 :=
    if (alGet st.apps rid).isSome then
      { st with
          apps := alRemove st.apps rid,
          appLogdirs := alRemove st.appLogdirs rid,
          appIngesters := alRemove st.appIngesters rid,
          stopped := match alGet st.appIngesters rid with
            | some t => st.stopped ++ [t]
            | none => st.stopped }
    else st
  { st1 with lastPing := alRemove st1.lastPing rid }

/-- One wake of the `_sweeper` loop (tensorboard.py lines 33-62): collect
every run id whose last heartbeat is older than `idleTimeout`, then evict
each. -/
def sweep (st : TBState) (now idleTimeout : Int) : TBState :=
  ((st.lastPing.filter (fun p => now - p.2 > idleTimeout)).map
      (fun p => p.1)).foldl evictOne st

/-- The dispatcher-side events that mutate the module state: an explicit
heartbeat, a dispatched request for a run id (which lazily builds or
reuses the cached app via `get_or_create_tb_app`), and a sweeper wake. -/
inductive TBEvent
  | heartbeat (rid : String) (now : Int)
  | request (rid : String) (logdir : String)
  | sweepAt (now : Int)
deriving DecidableEq

/-- The event is not an explicit heartbeat for job id `j` (requests and
sweeps never are; a heartbeat for a different id is fine). -/
def noHeartbeatFor (j : String) : TBEvent → Bool
  | .heartbeat rid _ => rid ≠ j
  | _ => true

/-- An event that keeps job id `j` (last heartbeat at `tp`) pending: not a
heartbeat for `j`, and any sweep in it wakes no later than the idle
deadline `tp + t`. -/
def eventKeepsPending (j : String) (tp t : Int) : TBEvent → Bool
  | .heartbeat rid _ => rid ≠ j
  | .request _ _ => true
  | .sweepAt τ => τ - tp ≤ t

/-- State transition for one event, with idle timeout `t`. -/
def tbStep (t : Int) (st : TBState) (e : TBEvent) : TBState :=
  match e with
  | .heartbeat rid now => record_heartbeat st rid now
  | .request rid logdir => (get_or_create_tb_app st rid logdir).1
  | .sweepAt now => sweep st now t

/-- Run a sequence of events. -/
def tbRun (t : Int) (st : TBState) (es : List TBEvent) : TBState :=
  es.foldl (tbStep t) st

/-! ### The WSGI dispatcher's request handling
(`make_dispatcher` in `dashboard_api/tensorboard.py`) -/

/-- Python `path.split("/")` on a character list. -/
def splitSlash (cs : List Char) (acc : List Char) : List (List Char) :=
  match cs with
  | [] => [acc.reverse]
  | c :: rest =>
    if c = '/' then acc.reverse :: splitSlash rest []
    else splitSlash rest (c :: acc)

/-- `[p for p in path.split("/") if p]`: the nonempty path segments. -/
def pathParts (p : List Char) : List (List Char) :=
  (splitSlash p []).filter (fun s => s ≠ [])

/-- Python `path.endswith("/")`. -/
def endsWithSlash (p : List Char) : Bool :=
  match p.getLast? with
  | some c => c = '/'
  | none => false

/-- The responses the dispatcher can produce before handing over to the
inner TensorBoard app: the plain index at the mount root, the 308
redirect, the 404 for an unresolvable logdir, or a forward to the per-run
app with the rewritten `SCRIPT_NAME`/`PATH_INFO`. -/
inductive TBResponse
  | indexPage
  | redirect (location : List Char)
  | notFound
  | forwarded (scriptName pathInfo : List Char) (rid : List Char)
deriving DecidableEq

/-- The per-request routing of `make_dispatcher`'s inner `app`
(tensorboard.py lines 169-248).  `scriptName`, `pathInfo` and
`queryString` are the WSGI environ entries; `resolveLogdir` abstracts the
database resolution `_resolve_logdir` and `dirExists` the `os.path.isdir`
probe.  The cache side effect (`get_or_create_tb_app`) is modelled
separately; this function captures the pure routing decision. -/
def dispatch (scriptName pathInfo queryString : List Char)
    (resolveLogdir : List Char → Option (List Char))
    (dirExists : List Char → Bool) : TBResponse :=
  let path := if pathInfo = [] then ['/'] else pathInfo
  let parts := pathParts path
  match parts with
  | [] => .indexPage
  | rid :: restParts =>
    if restParts = [] ∧ ¬ endsWithSlash path then
      let loc := scriptName ++ '/' :: rid ++ ['/']
      .redirect (if queryString ≠ [] then loc ++ '?' :: queryString else loc)
    else
      match resolveLogdir rid with
      | none => .notFound
      | some logdir =>
        if ¬ dirExists logdir then .notFound
        else
          let remainder := '/' :: (List.intercalate ['/'] restParts)
          .forwarded (scriptName ++ '/' :: rid)
            (if remainder = ['/'] then ['/'] else remainder) rid

deriving instance DecidableEq for Except

/-! ### Concrete example states used to evaluate the claims -/

/-- Three queued runs of agent 7 with jobs at (priority, enqueued_at)
= (5, 1), (1, 2), (5, 3): the dequeue-order scenario. -/
def dequeueDemo : Store :=
  { runs := [⟨1, .queued, some 7, [], none, none⟩,
             ⟨2, .queued, some 7, [], none, none⟩,
             ⟨3, .queued, some 7, [], none, none⟩],
    jobs := [⟨10, 1, 5, 1, none⟩, ⟨11, 2, 1, 2, none⟩, ⟨12, 3, 5, 3, none⟩],
    gpus := [] }

/-- `dequeueDemo` after claiming run 1 at time 100. -/
def dequeueDemo1 : Store :=
  { runs := [⟨1, .running, some 7, [], some 100, none⟩,
             ⟨2, .queued, some 7, [], none, none⟩,
             ⟨3, .queued, some 7, [], none, none⟩],
    jobs := [⟨10, 1, 5, 1, some 100⟩, ⟨11, 2, 1, 2, none⟩, ⟨12, 3, 5, 3, none⟩],
    gpus := [] }

/-- `dequeueDemo1` after claiming run 3 at time 101. -/
def dequeueDemo2 : Store :=
  { runs := [⟨1, .running, some 7, [], some 100, none⟩,
             ⟨2, .queued, some 7, [], none, none⟩,
             ⟨3, .running, some 7, [], some 101, none⟩],
    jobs := [⟨10, 1, 5, 1, some 100⟩, ⟨11, 2, 1, 2, none⟩, ⟨12, 3, 5, 3, some 101⟩],
    gpus := [] }

/-- `dequeueDemo2` after claiming run 2 at time 102. -/
def dequeueDemo3 : Store :=
  { runs := [⟨1, .running, some 7, [], some 100, none⟩,
             ⟨2, .running, some 7, [], some 102, none⟩,
             ⟨3, .running, some 7, [], some 101, none⟩],
    jobs := [⟨10, 1, 5, 1, some 100⟩, ⟨11, 2, 1, 2, some 102⟩, ⟨12, 3, 5, 3, some 101⟩],
    gpus := [] }

/-- One agent (id 1) with one free GPU (index 0): the start of the
double-allocation trace. -/
def cexSt0 : Store := { runs := [], jobs := [], gpus := [⟨1, 0, false⟩] }

/-- After creating run 1 on GPU 0 at time 0. -/
def cexSt1 : Store :=
  { runs := [⟨1, .queued, some 1, [0], none, none⟩],
    jobs := [⟨101, 1, 0, 0, none⟩],
    gpus := [⟨1, 0, true⟩] }

/-- After `finish_run 1` at time 1: run 1 terminal, GPU 0 released. -/
def cexSt2 : Store :=
  { runs := [⟨1, .succeeded, some 1, [0], none, some 1⟩],
    jobs := [⟨101, 1, 0, 0, none⟩],
    gpus := [⟨1, 0, false⟩] }

/-- After creating run 2 on GPU 0 at time 2. -/
def cexSt3 : Store :=
  { runs := [⟨1, .succeeded, some 1, [0], none, some 1⟩,
             ⟨2, .queued, some 1, [0], none, none⟩],
    jobs := [⟨101, 1, 0, 0, none⟩, ⟨102, 2, 0, 2, none⟩],
    gpus := [⟨1, 0, true⟩] }

/-- After `finish_run 1` again at time 3: the repeated terminal transition
re-releases GPU 0 although run 2 now holds it. -/
def cexSt4 : Store :=
  { runs := [⟨1, .succeeded, some 1, [0], none, some 3⟩,
             ⟨2, .queued, some 1, [0], none, none⟩],
    jobs := [⟨101, 1, 0, 0, none⟩, ⟨102, 2, 0, 2, none⟩],
    gpus := [⟨1, 0, false⟩] }

/-- After creating run 3 on GPU 0 at time 4: runs 2 and 3 are both
non-terminal and both list GPU 0, whose flag is set. -/
def cexSt5 : Store :=
  { runs := [⟨1, .succeeded, some 1, [0], none, some 3⟩,
             ⟨2, .queued, some 1, [0], none, none⟩,
             ⟨3, .queued, some 1, [0], none, none⟩],
    jobs := [⟨101, 1, 0, 0, none⟩, ⟨102, 2, 0, 2, none⟩, ⟨103, 3, 0, 4, none⟩],
    gpus := [⟨1, 0, true⟩] }

/-- `cexSt1` after agent 1 claims run 1 at time 10. -/
def cexClaimed : Store :=
  { runs := [⟨1, .running, some 1, [0], some 10, none⟩],
    jobs := [⟨101, 1, 0, 0, some 10⟩],
    gpus := [⟨1, 0, true⟩] }

/-- `cexClaimed` after cancelling run 1 at time 11. -/
def cexCanceled : Store :=
  { runs := [⟨1, .canceled, some 1, [0], some 10, some 11⟩],
    jobs := [⟨101, 1, 0, 0, some 10⟩],
    gpus := [⟨1, 0, false⟩] }

/-- A run already `succeeded` with `finished_at = 100`: the
terminal-finality scenario. -/
def terminalDemo : Store :=
  { runs := [⟨1, .succeeded, some 1, [], none, some 100⟩],
    jobs := [⟨101, 1, 0, 0, some 5⟩],
    gpus := [] }

/-- `terminalDemo` after `finish_run` at time 200: `finished_at` was
overwritten. -/
def terminalDemoAfter : Store :=
  { runs := [⟨1, .succeeded, some 1, [], none, some 200⟩],
    jobs := [⟨101, 1, 0, 0, some 5⟩],
    gpus := [] }

/-- A single queued run and its job, for the concurrent double-claim
trace. -/
def raceDemo : Store :=
  { runs := [⟨1, .queued, some 7, [0], none, none⟩],
    jobs := [⟨10, 1, 5, 1, none⟩],
    gpus := [⟨7, 0, true⟩] }

/-- `raceDemo` after the first claimer's write commits at time 100. -/
def raceDemo1 : Store :=
  { runs := [⟨1, .running, some 7, [0], some 100, none⟩],
    jobs := [⟨10, 1, 5, 1, some 100⟩],
    gpus := [⟨7, 0, true⟩] }

/-- `raceDemo1` after the second claimer's write commits at time 101,
silently overwriting the first claim. -/
def raceDemo2 : Store :=
  { runs := [⟨1, .running, some 7, [0], some 101, none⟩],
    jobs := [⟨10, 1, 5, 1, some 101⟩],
    gpus := [⟨7, 0, true⟩] }

/-- A dispatcher state with one cached app for `"job123"` that last
heartbeat at time 0. -/
def tbDemo : TBState :=
  { apps := [("job123", 0)], appLogdirs := [("job123", "runs/a")],
    appIngesters := [("job123", 0)], lastPing := [("job123", 0)],
    nextToken := 1, stopped := [] }

/-- The durable store after the create endpoint returns: the committed
store on success; on an HTTPException the session is closed without
commit, so the rollback leaves the original store. -/
def createDurable (st : Store) (runId jobId : Nat) (agentId : Option Nat)
    (gpuIndices : List Nat) (priority : Int) (now : Nat) : Store :=
  match create_run_from_config st runId jobId agentId gpuIndices priority now with
  | .ok st' => st'
  | .error _ => st

/-! ## Lemmas: GPU rows, reservation and release -/

theorem gpuKey_set (g : GpuRow) (b : Bool) (a' i' : Nat) :
    gpuKey { g with isAllocated := b } a' i' = gpuKey g a' i' := rfl

theorem findGpu_setAllocFirst_same (gs : List GpuRow) (a i : Nat) (b : Bool) :
    findGpu (setAllocFirst gs a i b) a i
      = (findGpu gs a i).map (fun g => { g with isAllocated := b }) := by
  induction gs with
  | nil => rfl
  | cons g rest ih =>
    by_cases h : gpuKey g a i = true
    · simp [findGpu, setAllocFirst, h, List.find?_cons, gpuKey_set]
    · have h' : gpuKey g a i = false := by simpa using h
      simpa [findGpu, setAllocFirst, h', List.find?_cons] using ih

theorem findGpu_setAllocFirst_ne (gs : List GpuRow) (a i : Nat) (b : Bool)
    (a' i' : Nat) (h : ¬(a' = a ∧ i' = i)) :
    findGpu (setAllocFirst gs a i b) a' i' = findGpu gs a' i' := by
  induction gs with
  | nil => rfl
  | cons g rest ih =>
    by_cases hk : gpuKey g a i = true
    · obtain ⟨h1, h2⟩ : g.agentId = a ∧ g.index = i := by simpa [gpuKey] using hk
      have hk' : gpuKey g a' i' = false := by
        simp only [gpuKey, decide_eq_false_iff_not]
        omega
      simp [findGpu, setAllocFirst, hk, List.find?_cons, gpuKey_set, hk']
    · have hk2 : gpuKey g a i = false := by simpa using hk
      by_cases hg : gpuKey g a' i' = true
      · simp [findGpu, setAllocFirst, hk2, List.find?_cons, hg]
      · have hg' : gpuKey g a' i' = false := by simpa using hg
        simpa [findGpu, setAllocFirst, hk2, List.find?_cons, hg'] using ih

theorem gpuAllocated_setAllocFirst_same (gs : List GpuRow) (a i : Nat) (b : Bool)
    (h : (findGpu gs a i).isSome) :
    gpuAllocated (setAllocFirst gs a i b) a i = b := by
  rcases Option.isSome_iff_exists.mp h with ⟨g, hg⟩
  simp [gpuAllocated, findGpu_setAllocFirst_same, hg]

theorem gpuAllocated_setAllocFirst_ne (gs : List GpuRow) (a i : Nat) (b : Bool)
    (a' i' : Nat) (h : ¬(a' = a ∧ i' = i)) :
    gpuAllocated (setAllocFirst gs a i b) a' i' = gpuAllocated gs a' i' := by
  simp [gpuAllocated, findGpu_setAllocFirst_ne gs a i b a' i' h]

theorem findGpu_setAllocFirst_isSome (gs : List GpuRow) (a i : Nat) (b : Bool)
    (a' i' : Nat) :
    (findGpu (setAllocFirst gs a i b) a' i').isSome = (findGpu gs a' i').isSome := by
  by_cases h : a' = a ∧ i' = i
  · rcases h with ⟨rfl, rfl⟩
    simp [findGpu_setAllocFirst_same]
  · simp [findGpu_setAllocFirst_ne gs a i b a' i' h]

theorem reserveGpus_mono (a : Nat) (idxs : List Nat) :
    ∀ (gs gs' : List GpuRow), reserveGpus gs a idxs = .ok gs' →
      ∀ a' i', gpuAllocated gs a' i' = true → gpuAllocated gs' a' i' = true := by
  induction idxs with
  | nil => intro gs gs' h a' i' hal; cases h; exact hal
  | cons i rest ih =>
    intro gs gs' h a' i' hal
    simp only [reserveGpus] at h
    cases hf : findGpu gs a i with
    | none => rw [hf] at h; cases h
    | some g =>
      rw [hf] at h
      by_cases hb : g.isAllocated
      · simp [hb] at h
      · simp [hb] at h
        refine ih _ _ h a' i' ?_
        by_cases hkey : a' = a ∧ i' = i
        · rcases hkey with ⟨rfl, rfl⟩
          exact gpuAllocated_setAllocFirst_same gs a' i' true (by simp [hf])
        · rw [gpuAllocated_setAllocFirst_ne gs a i true a' i' hkey]; exact hal

theorem reserveGpus_post (a : Nat) (idxs : List Nat) :
    ∀ (gs gs' : List GpuRow), reserveGpus gs a idxs = .ok gs' →
      ∀ i ∈ idxs, gpuAllocated gs' a i = true := by
  induction idxs with
  | nil => intro gs gs' _ i hi; cases hi
  | cons j rest ih =>
    intro gs gs' h i hi
    simp only [reserveGpus] at h
    cases hf : findGpu gs a j with
    | none => rw [hf] at h; cases h
    | some g =>
      rw [hf] at h
      by_cases hb : g.isAllocated
      · simp [hb] at h
      · simp [hb] at h
        rcases List.mem_cons.mp hi with rfl | hmem
        · exact reserveGpus_mono a rest _ _ h a i
            (gpuAllocated_setAllocFirst_same gs a i true (by simp [hf]))
        · exact ih _ _ h i hmem

theorem reserveGpus_pre (a : Nat) (idxs : List Nat) :
    ∀ (gs gs' : List GpuRow), reserveGpus gs a idxs = .ok gs' →
      ∀ i ∈ idxs, gpuAllocated gs a i = false := by
  induction idxs with
  | nil => intro gs gs' _ i hi; cases hi
  | cons j rest ih =>
    intro gs gs' h i hi
    simp only [reserveGpus] at h
    cases hf : findGpu gs a j with
    | none => rw [hf] at h; cases h
    | some g =>
      rw [hf] at h
      by_cases hb : g.isAllocated
      · simp [hb] at h
      · simp [hb] at h
        rcases List.mem_cons.mp hi with rfl | hmem
        · simp [gpuAllocated, hf, hb]
        · by_cases hij : i = j
          · subst hij; simp [gpuAllocated, hf, hb]
          · have := ih _ _ h i hmem
            rwa [gpuAllocated_setAllocFirst_ne gs a j true a i
              (by intro hc; exact hij hc.2)] at this

theorem reserveGpus_frame (a : Nat) (idxs : List Nat) :
    ∀ (gs gs' : List GpuRow), reserveGpus gs a idxs = .ok gs' →
      ∀ a' i', ¬(a' = a ∧ i' ∈ idxs) → gpuAllocated gs' a' i' = gpuAllocated gs a' i' := by
  induction idxs with
  | nil => intro gs gs' h a' i' _; cases h; rfl
  | cons j rest ih =>
    intro gs gs' h a' i' hni
    simp only [reserveGpus] at h
    cases hf : findGpu gs a j with
    | none => rw [hf] at h; cases h
    | some g =>
      rw [hf] at h
      by_cases hb : g.isAllocated
      · simp [hb] at h
      · simp [hb] at h
        have h1 : gpuAllocated gs' a' i' = gpuAllocated (setAllocFirst gs a j true) a' i' :=
          ih _ _ h a' i' (by intro hc; exact hni ⟨hc.1, List.mem_cons_of_mem j hc.2⟩)
        rw [h1, gpuAllocated_setAllocFirst_ne gs a j true a' i'
          (by intro hc; exact hni ⟨hc.1, hc.2 ▸ List.mem_cons_self j rest⟩)]

theorem reserveGpus_fail (a : Nat) (idxs : List Nat) :
    ∀ (gs : List GpuRow) (i : Nat), i ∈ idxs →
      (findGpu gs a i = none ∨ gpuAllocated gs a i = true) →
      ∃ e, reserveGpus gs a idxs = .error e := by
  induction idxs with
  | nil => intro gs i hi; cases hi
  | cons j rest ih =>
    intro gs i hi hbad
    simp only [reserveGpus]
    cases hf : findGpu gs a j with
    | none => exact ⟨.gpuNotFound j, rfl⟩
    | some g =>
      by_cases hb : g.isAllocated
      · exact ⟨.gpuConflict j, by simp [hb]⟩
      · simp only [hb, if_false]
        rcases List.mem_cons.mp hi with rfl | hmem
        · rcases hbad with hnone | hal
          · rw [hf] at hnone; cases hnone
          · rw [gpuAllocated, hf] at hal; exact absurd hal (by simpa using hb)
        · by_cases hij : i = j
          · subst hij
            rcases hbad with hnone | hal
            · rw [hf] at hnone; cases hnone
            · rw [gpuAllocated, hf] at hal; exact absurd hal (by simpa using hb)
          · refine ih _ i hmem ?_
            rcases hbad with hnone | hal
            · left
              have := findGpu_setAllocFirst_isSome gs a j true a i
              rw [hnone] at this
              simpa using Option.not_isSome_iff_eq_none.mp (by simp [this])
            · right
              rwa [gpuAllocated_setAllocFirst_ne gs a j true a i
                (by intro hc; exact hij hc.2)]

theorem reserveGpus_error_shape (a : Nat) (idxs : List Nat) :
    ∀ (gs : List GpuRow) (e : CreateError), reserveGpus gs a idxs = .error e →
      (∃ k, e = .gpuNotFound k) ∨ (∃ k, e = .gpuConflict k) := by
  induction idxs with
  | nil => intro gs e h; cases h
  | cons j rest ih =>
    intro gs e h
    simp only [reserveGpus] at h
    cases hf : findGpu gs a j with
    | none => rw [hf] at h; exact Or.inl ⟨j, (Except.error.inj h).symm⟩
    | some g =>
      rw [hf] at h
      by_cases hb : g.isAllocated
      · simp [hb] at h; exact Or.inr ⟨j, h.symm⟩
      · simp [hb] at h; exact ih _ e h

theorem setAllocFirst_noop (a i : Nat) :
    ∀ (gs : List GpuRow) (g : GpuRow), findGpu gs a i = some g →
      g.isAllocated = false → setAllocFirst gs a i false = gs := by
  intro gs
  induction gs with
  | nil => intro g h; cases h
  | cons x rest ih =>
    intro g h hal
    by_cases hk : gpuKey x a i = true
    · have hx : x = g := by
        simpa [findGpu, List.find?_cons, hk] using h
      subst hx
      have : ({ x with isAllocated := false } : GpuRow) = x := by
        cases x with
        | mk ag ix al => simp at hal; simp [hal]
      simp [setAllocFirst, hk, this]
    · have hk' : gpuKey x a i = false := by simpa using hk
      have hrest : findGpu rest a i = some g := by
        simpa [findGpu, List.find?_cons, hk'] using h
      simp [setAllocFirst, hk', ih g hrest hal]

theorem releaseGpus_noop (a : Nat) (idxs : List Nat) :
    ∀ (gs : List GpuRow), (∀ i ∈ idxs, gpuAllocated gs a i = false) →
      releaseGpus gs a idxs = gs := by
  induction idxs with
  | nil => intro gs _; rfl
  | cons j rest ih =>
    intro gs hfree
    simp only [releaseGpus]
    cases hf : findGpu gs a j with
    | none => exact ih gs (fun i hi => hfree i (List.mem_cons_of_mem j hi))
    | some g =>
      have hal : g.isAllocated = false := by
        have := hfree j (List.mem_cons_self j rest)
        rwa [gpuAllocated, hf] at this
      rw [setAllocFirst_noop a j gs g hf hal]
      exact ih gs (fun i hi => hfree i (List.mem_cons_of_mem j hi))

theorem releaseGpus_frame (a : Nat) (idxs : List Nat) :
    ∀ (gs : List GpuRow) (a' i' : Nat), ¬(a' = a ∧ i' ∈ idxs) →
      gpuAllocated (releaseGpus gs a idxs) a' i' = gpuAllocated gs a' i' := by
  induction idxs with
  | nil => intro gs a' i' _; rfl
  | cons j rest ih =>
    intro gs a' i' hni
    simp only [releaseGpus]
    cases hf : findGpu gs a j with
    | none => exact ih gs a' i' (by intro hc; exact hni ⟨hc.1, List.mem_cons_of_mem j hc.2⟩)
    | some g =>
      rw [ih _ a' i' (by intro hc; exact hni ⟨hc.1, List.mem_cons_of_mem j hc.2⟩),
        gpuAllocated_setAllocFirst_ne gs a j false a' i'
          (by intro hc; exact hni ⟨hc.1, hc.2 ▸ List.mem_cons_self j rest⟩)]

theorem releaseGpus_false (a : Nat) (idxs : List Nat) :
    ∀ (gs : List GpuRow) (i : Nat), i ∈ idxs →
      gpuAllocated (releaseGpus gs a idxs) a i = false := by
  induction idxs with
  | nil => intro gs i hi; cases hi
  | cons j rest ih =>
    intro gs i hi
    rcases List.mem_cons.mp hi with rfl | hmem
    · by_cases hr : i ∈ rest
      · simp only [releaseGpus]
        cases hf : findGpu gs a i with
        | none => exact ih gs i hr
        | some g => exact ih _ i hr
      · simp only [releaseGpus]
        cases hf : findGpu gs a i with
        | none =>
          rw [releaseGpus_frame a rest gs a i (by intro hc; exact hr hc.2)]
          simp [gpuAllocated, hf]
        | some g =>
          rw [releaseGpus_frame a rest _ a i (by intro hc; exact hr hc.2)]
          exact gpuAllocated_setAllocFirst_same gs a i false (by simp [hf])
    · simp only [releaseGpus]
      cases hf : findGpu gs a j with
      | none => exact ih gs i hmem
      | some g => exact ih _ i hmem

theorem releaseGpus_idem (gs : List GpuRow) (a : Nat) (idxs : List Nat) :
    releaseGpus (releaseGpus gs a idxs) a idxs = releaseGpus gs a idxs :=
  releaseGpus_noop a idxs _ (fun i hi => releaseGpus_false a idxs gs i hi)

theorem create_ok_inv {st st' : Store} {rid jid : Nat} {agentId : Option Nat}
    {idxs : List Nat} {p : Int} {now : Nat}
    (h : create_run_from_config st rid jid agentId idxs p now = .ok st') :
    ∃ gpus',
      st' = { runs := st.runs ++ [⟨rid, .queued, agentId, idxs, none, none⟩],
              jobs := st.jobs ++ [⟨jid, rid, p, now, none⟩],
              gpus := gpus' } ∧
      ((idxs = [] ∧ gpus' = st.gpus) ∨
       (∃ a, agentId = some a ∧ idxs ≠ [] ∧ reserveGpus st.gpus a idxs = .ok gpus')) := by
  cases agentId with
  | none =>
    cases idxs with
    | nil =>
      refine ⟨st.gpus, ?_, Or.inl ⟨rfl, rfl⟩⟩
      simpa [create_run_from_config] using h.symm
    | cons i rest => simp [create_run_from_config] at h
  | some a =>
    cases idxs with
    | nil =>
      refine ⟨st.gpus, ?_, Or.inl ⟨rfl, rfl⟩⟩
      simpa [create_run_from_config] using h.symm
    | cons i rest =>
      simp only [create_run_from_config] at h
      cases hr : reserveGpus st.gpus a (i :: rest) with
      | error e => simp [hr] at h
      | ok gpus' =>
        refine ⟨gpus', ?_, Or.inr ⟨a, rfl, by simp, hr⟩⟩
        simp [hr] at h
        exact h.symm

theorem create_error_of_reserve_error {st : Store} {rid jid : Nat} {a : Nat}
    {i : Nat} {rest : List Nat} {p : Int} {now : Nat} {e : CreateError}
    (hr : reserveGpus st.gpus a (i :: rest) = .error e) :
    create_run_from_config st rid jid (some a) (i :: rest) p now = .error e := by
  simp [create_run_from_config, hr]

/-- **C6**: releasing GPUs is idempotent and never an error — releasing
already-free or nonexistent indices leaves the store unchanged, a second
release is a no-op, the flag is false after either — and every
terminal-state transition site (`cancel_run`, `finish_run`,
`_update_run_state` with a terminal state) computes its new GPU table by
exactly this release. -/
theorem gpu_release_idempotent :
    (∀ (gs : List GpuRow) (a : Nat) (idxs : List Nat),
        releaseGpus (releaseGpus gs a idxs) a idxs = releaseGpus gs a idxs)
  ∧ (∀ (gs : List GpuRow) (a : Nat) (idxs : List Nat),
        (∀ i ∈ idxs, gpuAllocated gs a i = false) → releaseGpus gs a idxs = gs)
  ∧ (∀ (gs : List GpuRow) (a : Nat) (idxs : List Nat) (i : Nat), i ∈ idxs →
        gpuAllocated (releaseGpus gs a idxs) a i = false
        ∧ gpuAllocated (releaseGpus (releaseGpus gs a idxs) a idxs) a i = false)
  ∧ (∀ (st : Store) (rid now : Nat) (r : RunRow),
        findRun st.runs rid = some r → r.state.isTerminal = false →
        ∀ st' s, cancel_run st rid now = .ok (st', s) →
          st'.gpus = releaseRunGpus st.gpus r)
  ∧ (∀ (st : Store) (rid : Nat) (success : Bool) (now : Nat) (r : RunRow),
        findRun st.runs rid = some r →
        ∀ st' s, finish_run st rid success now = .ok (st', s) →
          st'.gpus = releaseRunGpus st.gpus r)
  ∧ (∀ (st : Store) (rid : Nat) (s : RunState) (now : Nat) (r : RunRow),
        findRun st.runs rid = some r → s.isTerminal = true →
        ∀ st' b, update_run_state st rid s now = (st', b) →
          st'.gpus = releaseRunGpus st.gpus r) := by
  refine ⟨releaseGpus_idem, fun gs a idxs => releaseGpus_noop a idxs gs,
    fun gs a idxs i hi => ⟨releaseGpus_false a idxs gs i hi, by
      rw [releaseGpus_idem]; exact releaseGpus_false a idxs gs i hi⟩,
    ?_, ?_, ?_⟩
  · intro st rid now r hfind hnt st' s h
    simp only [cancel_run, hfind, hnt, Bool.false_eq_true, if_false,
      Except.ok.injEq, Prod.mk.injEq] at h
    rw [← h.1]
  · intro st rid success now r hfind st' s h
    simp only [finish_run, hfind, Except.ok.injEq, Prod.mk.injEq] at h
    cases success with
    | true =>
      simp only [if_true, RunState.isTerminal] at h
      rw [← h.1]
    | false =>
      simp only [Bool.false_eq_true, if_false, RunState.isTerminal] at h
      rw [← h.1]
      all_goals simp
  · intro st rid s now r hfind hterm st' b h
    simp only [update_run_state, hfind, hterm, if_true, Prod.mk.injEq] at h
    rw [← h.1]

/-- Witness for C6: releasing a free GPU (plus a nonexistent index 3) is a
no-op, and a double release leaves the flag false. -/
theorem gpu_release_idempotent_witness :
    releaseGpus [⟨1, 0, false⟩] 1 [0, 3] = [⟨1, 0, false⟩]
  ∧ gpuAllocated (releaseGpus (releaseGpus [⟨1, 0, true⟩] 1 [0]) 1 [0]) 1 0 = false :=
  ⟨gpu_release_idempotent.2.1 [⟨1, 0, false⟩] 1 [0, 3] (by decide),
   (gpu_release_idempotent.2.2.1 [⟨1, 0, true⟩] 1 [0] 0 (by decide)).2⟩

/-- **C7**: reservation at run creation is all-or-nothing.  If any
requested index is missing from the agent or already allocated, the
endpoint fails with a not-found or conflict error; on failure the durable
store is exactly the input store (no flag changed, no Run or Job row
created); on success exactly one `queued` Run and one Job row are appended
and every requested flag is set. -/
theorem create_reserve_all_or_nothing :
    (∀ (st : Store) (rid jid a : Nat) (idxs : List Nat) (p : Int) (now i : Nat),
        i ∈ idxs → (findGpu st.gpus a i = none ∨ gpuAllocated st.gpus a i = true) →
        ∃ e, create_run_from_config st rid jid (some a) idxs p now = .error e ∧
          ((∃ k, e = CreateError.gpuNotFound k) ∨ (∃ k, e = CreateError.gpuConflict k)))
  ∧ (∀ (st : Store) (rid jid : Nat) (agentId : Option Nat) (idxs : List Nat)
        (p : Int) (now : Nat) (e : CreateError),
        create_run_from_config st rid jid agentId idxs p now = .error e →
        createDurable st rid jid agentId idxs p now = st)
  ∧ (∀ (st : Store) (rid jid : Nat) (agentId : Option Nat) (idxs : List Nat)
        (p : Int) (now : Nat) (st' : Store),
        create_run_from_config st rid jid agentId idxs p now = .ok st' →
        createDurable st rid jid agentId idxs p now = st'
        ∧ st'.runs = st.runs ++ [⟨rid, .queued, agentId, idxs, none, none⟩]
        ∧ st'.jobs = st.jobs ++ [⟨jid, rid, p, now, none⟩]
        ∧ ∀ a, agentId = some a → ∀ i ∈ idxs, gpuAllocated st'.gpus a i = true) := by
  refine ⟨?_, ?_, ?_⟩
  · intro st rid jid a idxs p now i hi hbad
    obtain ⟨e, he⟩ := reserveGpus_fail a idxs st.gpus i hi hbad
    cases idxs with
    | nil => cases hi
    | cons j rest =>
      exact ⟨e, create_error_of_reserve_error he,
        reserveGpus_error_shape a (j :: rest) st.gpus e he⟩
  · intro st rid jid agentId idxs p now e h
    simp [createDurable, h]
  · intro st rid jid agentId idxs p now st' h
    obtain ⟨gpus', hst', hres⟩ := create_ok_inv h
    subst hst'
    refine ⟨by simp [createDurable, h], rfl, rfl, ?_⟩
    intro a ha i hi
    rcases hres with ⟨hnil, _⟩ | ⟨a0, ha0, _, hr⟩
    · subst hnil; cases hi
    · have haa : a = a0 := by rw [ha] at ha0; exact Option.some.inj ha0
      subst haa
      exact reserveGpus_post a idxs st.gpus gpus' hr i hi

/-- Witness for C7: requesting already-allocated GPU 0 on agent 1 is
rejected with a conflict. -/
theorem create_reserve_all_or_nothing_witness :
    ∃ e, create_run_from_config ⟨[], [], [⟨1, 0, true⟩]⟩ 5 6 (some 1) [0] 0 0 = .error e ∧
      ((∃ k, e = CreateError.gpuNotFound k) ∨ (∃ k, e = CreateError.gpuConflict k)) :=
  create_reserve_all_or_nothing.1 ⟨[], [], [⟨1, 0, true⟩]⟩ 5 6 1 [0] 0 0 0
    (by decide) (Or.inr (by decide))

/-! ## Lemmas: the ordered dequeue -/

theorem jobMoreUrgent_irrefl (j : JobRow) : jobMoreUrgent j j = false := by
  simp only [jobMoreUrgent, decide_eq_false_iff_not]
  omega

theorem jobMoreUrgent_trans {x b j : JobRow} (h1 : jobMoreUrgent x b = true)
    (h2 : jobMoreUrgent b j = true) : jobMoreUrgent x j = true := by
  simp only [jobMoreUrgent, decide_eq_true_eq] at h1 h2 ⊢
  omega

theorem jobMoreUrgent_neg_trans {x b j : JobRow} (h1 : jobMoreUrgent x b = false)
    (h2 : jobMoreUrgent b j = false) : jobMoreUrgent x j = false := by
  simp only [jobMoreUrgent, decide_eq_false_iff_not] at h1 h2 ⊢
  omega

theorem chooseBetter_spec :
    ∀ (js : List JobRow) (b : JobRow),
      ∃ j, js.foldl chooseBetter (some b) = some j ∧ (j = b ∨ j ∈ js) ∧
        jobMoreUrgent b j = false ∧ ∀ x ∈ js, jobMoreUrgent x j = false := by
  intro js
  induction js with
  | nil =>
    intro b
    exact ⟨b, rfl, Or.inl rfl, jobMoreUrgent_irrefl b, by intro x hx; cases hx⟩
  | cons x xs ih =>
    intro b
    by_cases hxb : jobMoreUrgent x b = true
    · obtain ⟨j, heq, hmem, hxj, hall⟩ := ih x
      refine ⟨j, ?_, ?_, ?_, ?_⟩
      · simpa [chooseBetter, hxb] using heq
      · rcases hmem with rfl | hm
        · exact Or.inr (List.mem_cons_self _ _)
        · exact Or.inr (List.mem_cons_of_mem _ hm)
      · by_contra hbj
        have hbj' : jobMoreUrgent b j = true := by
          cases hb : jobMoreUrgent b j with
          | true => rfl
          | false => exact absurd hb hbj
        have := jobMoreUrgent_trans hxb hbj'
        rw [this] at hxj; cases hxj
      · intro y hy
        rcases List.mem_cons.mp hy with rfl | hm
        · exact hxj
        · exact hall y hm
    · have hxb' : jobMoreUrgent x b = false := by
        cases hb : jobMoreUrgent x b with
        | true => exact absurd hb hxb
        | false => rfl
      obtain ⟨j, heq, hmem, hbj, hall⟩ := ih b
      refine ⟨j, ?_, ?_, hbj, ?_⟩
      · simpa [chooseBetter, hxb'] using heq
      · rcases hmem with rfl | hm
        · exact Or.inl rfl
        · exact Or.inr (List.mem_cons_of_mem _ hm)
      · intro y hy
        rcases List.mem_cons.mp hy with rfl | hm
        · exact jobMoreUrgent_neg_trans hxb' hbj
        · exact hall y hm

theorem firstByOrder_eq_none_iff (js : List JobRow) :
    firstByOrder js = none ↔ js = [] := by
  cases js with
  | nil => simp [firstByOrder]
  | cons x xs =>
    obtain ⟨j, heq, -, -, -⟩ := chooseBetter_spec xs x
    simp [firstByOrder, List.foldl_cons, chooseBetter, heq]

theorem firstByOrder_spec {js : List JobRow} {j : JobRow}
    (h : firstByOrder js = some j) :
    j ∈ js ∧ ∀ x ∈ js, jobMoreUrgent x j = false := by
  cases js with
  | nil => cases h
  | cons x xs =>
    obtain ⟨j', heq, hmem, hxj, hall⟩ := chooseBetter_spec xs x
    have hjj : j' = j := by
      have : (x :: xs).foldl chooseBetter none = some j' := by
        simpa [List.foldl_cons, chooseBetter] using heq
      rw [firstByOrder, this] at h
      exact Option.some.inj h
    subst hjj
    constructor
    · rcases hmem with rfl | hm
      · exact List.mem_cons_self _ _
      · exact List.mem_cons_of_mem _ hm
    · intro y hy
      rcases List.mem_cons.mp hy with rfl | hm
      · exact hxj
      · exact hall y hm

theorem eligibleJob_some {st : Store} {aid : Nat} {j : JobRow}
    (h : eligibleJob st aid j = true) :
    ∃ r, findRun st.runs j.runId = some r ∧ r.state = .queued ∧ r.agentId = some aid := by
  unfold eligibleJob at h
  cases hf : findRun st.runs j.runId with
  | none => rw [hf] at h; cases h
  | some r =>
    rw [hf] at h
    exact ⟨r, rfl, by simpa using h⟩

/-- Inversion of a successful claim: the selected job is an eligible
optimum and the new store differs only in the run's state/`started_at`
and the job's `dequeued_at`. -/
theorem get_next_some_inv {st st' : Store} {aid now : Nat} {ctx : RunContext}
    (h : get_next_queued_run st aid now = some (st', ctx)) :
    ∃ j r, j ∈ st.jobs ∧ eligibleJob st aid j = true
      ∧ findRun st.runs j.runId = some r
      ∧ r.state = .queued ∧ r.agentId = some aid
      ∧ ctx = ⟨r.id, r.gpuIndices⟩
      ∧ (∀ j' ∈ st.jobs, eligibleJob st aid j' = true → jobMoreUrgent j' j = false)
      ∧ st' = { runs := updateRunFirst st.runs j.runId
                  (fun x => { x with state := .running, startedAt := some now }),
                jobs := updateJobFirst st.jobs j.id
                  (fun x => { x with dequeuedAt := some now }),
                gpus := st.gpus } := by
  rw [get_next_queued_run] at h
  cases hfo : claimRead st aid with
  | none => rw [hfo] at h; cases h
  | some j =>
    rw [hfo] at h
    have hfo' : firstByOrder (st.jobs.filter (eligibleJob st aid)) = some j := hfo
    have hspec := firstByOrder_spec hfo'
    have hjmem : j ∈ st.jobs := (List.mem_filter.mp hspec.1).1
    have hel : eligibleJob st aid j = true := (List.mem_filter.mp hspec.1).2
    obtain ⟨r, hr, hq, ha⟩ := eligibleJob_some hel
    simp only [claimWrite, hr, Option.some.injEq, Prod.mk.injEq] at h
    obtain ⟨hst, hctx⟩ := h
    refine ⟨j, r, hjmem, hel, hr, hq, ha, hctx.symm, ?_, hst.symm⟩
    intro j' hj' hel'
    exact hspec.2 j' (List.mem_filter.mpr ⟨hj', hel'⟩)

/-- **C2**: `get_next_queued_run` returns `none` exactly when no job is
eligible (queued run of the polling agent); otherwise it picks an eligible
job that no other eligible job beats under priority-descending /
enqueued-ascending order, marks the run `running` with `started_at`,
stamps the job's `dequeued_at`, and touches nothing else.  On the
(5,t1), (1,t2), (5,t3) scenario the claims come back in order run 1,
run 3, run 2, then `none`. -/
theorem dequeue_order_correct :
    (∀ (st : Store) (aid now : Nat),
        (get_next_queued_run st aid now = none ↔
          ∀ j ∈ st.jobs, eligibleJob st aid j = false))
  ∧ (∀ (st : Store) (aid now : Nat) (st' : Store) (ctx : RunContext),
        get_next_queued_run st aid now = some (st', ctx) →
        ∃ j r, j ∈ st.jobs ∧ eligibleJob st aid j = true
          ∧ findRun st.runs j.runId = some r
          ∧ r.state = .queued ∧ r.agentId = some aid
          ∧ ctx = ⟨r.id, r.gpuIndices⟩
          ∧ (∀ j' ∈ st.jobs, eligibleJob st aid j' = true → jobMoreUrgent j' j = false)
          ∧ st'.runs = updateRunFirst st.runs j.runId
              (fun x => { x with state := .running, startedAt := some now })
          ∧ st'.jobs = updateJobFirst st.jobs j.id
              (fun x => { x with dequeuedAt := some now })
          ∧ st'.gpus = st.gpus)
  ∧ (get_next_queued_run dequeueDemo 7 100 = some (dequeueDemo1, ⟨1, []⟩)
      ∧ get_next_queued_run dequeueDemo1 7 101 = some (dequeueDemo2, ⟨3, []⟩)
      ∧ get_next_queued_run dequeueDemo2 7 102 = some (dequeueDemo3, ⟨2, []⟩)
      ∧ get_next_queued_run dequeueDemo3 7 103 = none) := by
  refine ⟨?_, ?_, by decide⟩
  · intro st aid now
    constructor
    · intro h j hj
      by_contra hne
      have hel : eligibleJob st aid j = true := by
        cases he : eligibleJob st aid j with
        | true => rfl
        | false => exact absurd he hne
      have hjf : j ∈ st.jobs.filter (eligibleJob st aid) :=
        List.mem_filter.mpr ⟨hj, hel⟩
      cases hfo : firstByOrder (st.jobs.filter (eligibleJob st aid)) with
      | none =>
        rw [firstByOrder_eq_none_iff] at hfo
        rw [hfo] at hjf; cases hjf
      | some j0 =>
        have hspec0 := firstByOrder_spec hfo
        have hel0 : eligibleJob st aid j0 = true :=
          (List.mem_filter.mp hspec0.1).2
        obtain ⟨r, hr, -, -⟩ := eligibleJob_some hel0
        rw [get_next_queued_run] at h
        have hfo' : claimRead st aid = some j0 := hfo
        rw [hfo'] at h
        simp only [claimWrite, hr] at h
        cases h
    · intro h
      have hfil : st.jobs.filter (eligibleJob st aid) = [] :=
        List.filter_eq_nil_iff.mpr (by
          intro j hj
          simp [h j hj])
      rw [get_next_queued_run, claimRead, hfil]
      rfl
  · intro st aid now st' ctx h
    obtain ⟨j, r, hjmem, hel, hr, hq, ha, hctx, hopt, hst⟩ := get_next_some_inv h
    subst hst
    exact ⟨j, r, hjmem, hel, hr, hq, ha, hctx, hopt, rfl, rfl, rfl⟩

/-- **C3**: the claim operation is implemented as a read
(`claimRead`, the ordered `SELECT`) followed by an unguarded write
(`claimWrite`, which re-checks nothing) — `get_next_queued_run` is
definitionally their composition — and under the read-committed
interleaving read/read/write/write two concurrent claimers of agent 7
both succeed on the single queued run 1 of `raceDemo`: no compare-and-set
protects the queued→running transition. -/
theorem concurrent_claim_double_success :
    (∀ (st : Store) (aid now : Nat),
        get_next_queued_run st aid now
          = match claimRead st aid with
            | none => none
            | some j => claimWrite st j now)
  ∧ claimRead raceDemo 7 = some ⟨10, 1, 5, 1, none⟩
  ∧ claimWrite raceDemo ⟨10, 1, 5, 1, none⟩ 100 = some (raceDemo1, ⟨1, [0]⟩)
  ∧ claimWrite raceDemo1 ⟨10, 1, 5, 1, none⟩ 101 = some (raceDemo2, ⟨1, [0]⟩) :=
  ⟨fun _ _ _ => rfl, by decide, by decide, by decide⟩

/-- Witness for C2: an empty store has no eligible job and the claim
returns `none`. -/
theorem dequeue_order_correct_witness :
    get_next_queued_run (Store.mk [] [] []) 7 0 = none :=
  (dequeue_order_correct.1 (Store.mk [] [] []) 7 0).mpr (by decide)

/-! ## C4: terminal finality -/

/-- Counterexample to C4 as stated: `finish_run` on a run already
`succeeded` (with `finished_at = 100`) is not a no-op — it rewrites
`finished_at` to 200, so not every transition request on a terminal run
leaves the Run unchanged. -/
theorem terminal_finality_cex :
    finish_run terminalDemo 1 true 200 = .ok (terminalDemoAfter, .succeeded)
  ∧ terminalDemoAfter ≠ terminalDemo
  ∧ (findRun terminalDemo.runs 1).map RunRow.finishedAt = some (some 100)
  ∧ (findRun terminalDemoAfter.runs 1).map RunRow.finishedAt = some (some 200) := by
  refine ⟨by decide, by decide, by decide, by decide⟩

/-- **C4 amended**: the cancel endpoint alone enforces terminal finality —
`cancel_run` on a run already in a terminal state returns the current
state and leaves the whole store unchanged.  (`finish_run` performs its
overwrite unconditionally, see `terminal_finality_cex`.) -/
theorem terminal_cancel_noop (st : Store) (rid now : Nat) (r : RunRow)
    (hfind : findRun st.runs rid = some r) (hterm : r.state.isTerminal = true) :
    cancel_run st rid now = .ok (st, r.state) := by
  simp only [cancel_run, hfind, hterm, if_true]

/-- Witness for the amended C4 at the concrete succeeded run. -/
theorem terminal_cancel_noop_witness :
    cancel_run terminalDemo 1 200 = .ok (terminalDemo, .succeeded) :=
  terminal_cancel_noop terminalDemo 1 200 ⟨1, .succeeded, some 1, [], none, some 100⟩
    (by decide) (by decide)

/-! ## C5: ETA computation -/

/-- Counterexample to C5 as stated: after an epoch of duration 0 the code
reports no ETA (`_calculate_eta`'s truthiness guard treats a zero average
as absent), while the claimed formula gives `remaining * avg = 0`. -/
theorem eta_formula_cex :
    calculate_eta (on_training_progress initialProgressState 0 5 0) = none
  ∧ calculate_eta (on_training_progress initialProgressState 0 5 0)
      ≠ some ((max 0 ((5 : ℤ) - ((0 : ℤ) + 1)) : ℤ) * (0 : ℚ)) := by
  refine ⟨by decide, by decide⟩

/-- **C5 amended**: the tracked average becomes the duration when
previously absent and otherwise `0.7*avg + 0.3*duration`;
`remaining = max 0 (total - (epoch+1))` and `eta = remaining * avg`
whenever the average and `total_epochs` are nonzero; the ETA is absent
before any epoch has completed (and also whenever the average or
`total_epochs` is zero, by the Python truthiness guard).  For durations
[10, 20] with `total_epochs = 5` at 0-based epoch 1: average 13, ETA 39. -/
theorem eta_computation :
    (∀ (s : ProgressState) (e t : Nat) (d : ℚ), s.avgEpochTime = none →
        (on_training_progress s e t d).avgEpochTime = some d)
  ∧ (∀ (s : ProgressState) (e t : Nat) (d avg : ℚ), s.avgEpochTime = some avg →
        (on_training_progress s e t d).avgEpochTime = some (7/10 * avg + 3/10 * d))
  ∧ (∀ (s : ProgressState) (e t : Nat) (d a : ℚ),
        (on_training_progress s e t d).avgEpochTime = some a → a ≠ 0 → t ≠ 0 →
        calculate_eta (on_training_progress s e t d)
          = some ((max 0 ((t : ℤ) - ((e : ℤ) + 1)) : ℤ) * a))
  ∧ calculate_eta initialProgressState = none
  ∧ ((on_training_progress (on_training_progress initialProgressState 0 5 10) 1 5 20).avgEpochTime
        = some 13
      ∧ calculate_eta (on_training_progress (on_training_progress initialProgressState 0 5 10) 1 5 20)
        = some 39) := by
  refine ⟨?_, ?_, ?_, rfl,
    by norm_num [on_training_progress, initialProgressState],
    by norm_num [calculate_eta, on_training_progress, initialProgressState]⟩
  · intro s e t d h
    simp [on_training_progress, h]
  · intro s e t d avg h
    simp [on_training_progress, h]
  · intro s e t d a ha hnz ht
    have : (on_training_progress s e t d).currentEpoch = some e := rfl
    have ht' : (on_training_progress s e t d).totalEpochs = some t := rfl
    rw [calculate_eta, ha, this, ht']
    simp [hnz, ht]

/-- Witness for the amended C5: the EMA step applied at a concrete state
with average 10 and a new duration 20. -/
theorem eta_computation_witness :
    (on_training_progress ⟨some 0, some 5, some 10⟩ 1 5 20).avgEpochTime
      = some (7/10 * 10 + 3/10 * 20) :=
  eta_computation.2.1 ⟨some 0, some 5, some 10⟩ 1 5 20 10 rfl

/-! ## Lemmas: run-table updates and the allocation invariant -/

theorem updateRunFirst_decomp {rs : List RunRow} {rid : Nat} {r : RunRow}
    (h : findRun rs rid = some r) (f : RunRow → RunRow) :
    ∃ l1 l2, rs = l1 ++ r :: l2 ∧ (∀ x ∈ l1, x.id ≠ rid) ∧ r.id = rid ∧
      updateRunFirst rs rid f = l1 ++ f r :: l2 := by
  induction rs with
  | nil => cases h
  | cons x rest ih =>
    by_cases hx : x.id = rid
    · have hr : x = r := by
        have hhead : findRun (x :: rest) rid = some x := by
          simp [findRun, List.find?_cons, hx]
        rw [hhead] at h
        exact Option.some.inj h
      subst hr
      exact ⟨[], rest, rfl, by simp, hx, by simp [updateRunFirst, hx]⟩
    · have h' : findRun rest rid = some r := by
        simpa [findRun, List.find?_cons, hx] using h
      obtain ⟨l1, l2, hrs, hl1, hrid, hupd⟩ := ih h'
      refine ⟨x :: l1, l2, by rw [List.cons_append, ← hrs], ?_, hrid, ?_⟩
      · intro y hy
        rcases List.mem_cons.mp hy with rfl | hm
        · exact hx
        · exact hl1 y hm
      · simp [updateRunFirst, hx, hupd]

theorem nodup_split_ne {l1 l2 : List RunRow} {r : RunRow}
    (h : ((l1 ++ r :: l2).map RunRow.id).Nodup) :
    ∀ x, x ∈ l1 ∨ x ∈ l2 → x.id ≠ r.id := by
  rw [List.map_append, List.map_cons, List.nodup_append] at h
  obtain ⟨h1, h2, hdisj⟩ := h
  intro x hx heq
  rcases hx with hx | hx
  · exact hdisj (List.mem_map_of_mem RunRow.id hx) (heq ▸ List.mem_cons_self _ _)
  · exact (List.nodup_cons.mp h2).1 (heq ▸ List.mem_map_of_mem RunRow.id hx)

theorem updateRunFirst_map_id (rs : List RunRow) (rid : Nat) (f : RunRow → RunRow)
    (hf : ∀ x, (f x).id = x.id) :
    (updateRunFirst rs rid f).map RunRow.id = rs.map RunRow.id := by
  induction rs with
  | nil => rfl
  | cons x rest ih =>
    by_cases hx : x.id = rid
    · simp [updateRunFirst, hx, hf]
    · simp [updateRunFirst, hx, ih]

theorem disjointRuns_transfer {rs rs' : List RunRow}
    (hc : ∀ x ∈ rs', ∃ x0 ∈ rs, x0.id = x.id ∧ x0.agentId = x.agentId ∧
      x0.gpuIndices = x.gpuIndices ∧ (x.state.isTerminal = false → x0.state.isTerminal = false))
    (h : DisjointRuns rs) : DisjointRuns rs' := by
  intro r1 h1 r2 h2 hne hnt1 hnt2 a i ha1 ha2 hi1 hi2
  obtain ⟨x1, hx1m, hid1, hag1, hgp1, hterm1⟩ := hc r1 h1
  obtain ⟨x2, hx2m, hid2, hag2, hgp2, hterm2⟩ := hc r2 h2
  exact h x1 hx1m x2 hx2m (by rw [hid1, hid2]; exact hne) (hterm1 hnt1) (hterm2 hnt2)
    a i (by rw [hag1]; exact ha1) (by rw [hag2]; exact ha2)
    (by rw [hgp1]; exact hi1) (by rw [hgp2]; exact hi2)

theorem inv_atMostOne {st : Store} (h : Inv st) : AtMostOneHolder st := by
  intro a i r1 r2 h1 h2 hold1 hold2
  by_contra hne
  exact h.2.2 r1 h1 r2 h2 hne hold1.1 hold2.1 a i hold1.2.1 hold2.2.1
    hold1.2.2.1 hold2.2.2.1

theorem inv_create {st st' : Store} {rid jid : Nat} {agentId : Option Nat}
    {idxs : List Nat} {p : Int} {now : Nat}
    (hfresh : ∀ r ∈ st.runs, r.id ≠ rid)
    (hok : create_run_from_config st rid jid agentId idxs p now = .ok st')
    (hinv : Inv st) : Inv st' := by
  obtain ⟨hnodup, hrok, hdisj⟩ := hinv
  obtain ⟨gpus', hst', hres⟩ := create_ok_inv hok
  subst hst'
  refine ⟨?_, ?_, ?_⟩
  · rw [List.map_append, List.nodup_append]
    refine ⟨hnodup, by simp, ?_⟩
    intro x hx hx2
    simp only [List.map_cons, List.map_nil, List.mem_singleton] at hx2
    obtain ⟨y, hy, hyid⟩ := List.mem_map.mp hx
    exact hfresh y hy (by rw [hyid, hx2])
  · intro r hr hnt i hi
    rcases List.mem_append.mp hr with hold | hnewm
    · obtain ⟨a, ha, hal⟩ := hrok r hold hnt i hi
      refine ⟨a, ha, ?_⟩
      rcases hres with ⟨-, rfl⟩ | ⟨a0, -, -, hrsv⟩
      · exact hal
      · exact reserveGpus_mono a0 idxs _ _ hrsv a i hal
    · have hrn : r = ⟨rid, .queued, agentId, idxs, none, none⟩ := by simpa using hnewm
      subst hrn
      rcases hres with ⟨hnil, -⟩ | ⟨a0, ha0, -, hrsv⟩
      · rw [show (⟨rid, .queued, agentId, idxs, none, none⟩ : RunRow).gpuIndices = idxs
            from rfl, hnil] at hi
        cases hi
      · exact ⟨a0, ha0, reserveGpus_post a0 idxs _ _ hrsv i hi⟩
  · intro r1 h1 r2 h2 hne hnt1 hnt2 a i ha1 ha2 hi1 hi2
    rcases List.mem_append.mp h1 with h1o | h1n
    · rcases List.mem_append.mp h2 with h2o | h2n
      · exact hdisj r1 h1o r2 h2o hne hnt1 hnt2 a i ha1 ha2 hi1 hi2
      · have hr2 : r2 = ⟨rid, .queued, agentId, idxs, none, none⟩ := by simpa using h2n
        subst hr2
        rcases hres with ⟨hnil, -⟩ | ⟨a0, ha0, -, hrsv⟩
        · rw [show (⟨rid, .queued, agentId, idxs, none, none⟩ : RunRow).gpuIndices = idxs
              from rfl, hnil] at hi2
          cases hi2
        · obtain ⟨a', ha', hal⟩ := hrok r1 h1o hnt1 i hi1
          rw [ha1] at ha'
          have he1 : a = a' := Option.some.inj ha'
          subst he1
          have he2 : agentId = some a := ha2
          rw [he2] at ha0
          have he3 : a = a0 := Option.some.inj ha0
          subst he3
          have hfree := reserveGpus_pre a idxs _ _ hrsv i hi2
          rw [hal] at hfree
          cases hfree
    · rcases List.mem_append.mp h2 with h2o | h2n
      · have hr1 : r1 = ⟨rid, .queued, agentId, idxs, none, none⟩ := by simpa using h1n
        subst hr1
        rcases hres with ⟨hnil, -⟩ | ⟨a0, ha0, -, hrsv⟩
        · rw [show (⟨rid, .queued, agentId, idxs, none, none⟩ : RunRow).gpuIndices = idxs
              from rfl, hnil] at hi1
          cases hi1
        · obtain ⟨a', ha', hal⟩ := hrok r2 h2o hnt2 i hi2
          rw [ha2] at ha'
          have he1 : a = a' := Option.some.inj ha'
          subst he1
          have he2 : agentId = some a := ha1
          rw [he2] at ha0
          have he3 : a = a0 := Option.some.inj ha0
          subst he3
          have hfree := reserveGpus_pre a idxs _ _ hrsv i hi1
          rw [hal] at hfree
          cases hfree
      · have hr1 : r1 = ⟨rid, .queued, agentId, idxs, none, none⟩ := by simpa using h1n
        have hr2 : r2 = ⟨rid, .queued, agentId, idxs, none, none⟩ := by simpa using h2n
        rw [hr1, hr2] at hne
        exact hne rfl

theorem releaseRunGpus_frame (gs : List GpuRow) (r : RunRow) (a i : Nat)
    (h : ∀ ar, r.agentId = some ar → ¬(a = ar ∧ i ∈ r.gpuIndices)) :
    gpuAllocated (releaseRunGpus gs r) a i = gpuAllocated gs a i := by
  cases r with
  | mk rid rstate ragent rgpus rst rfin =>
    cases ragent with
    | none => cases rgpus <;> rfl
    | some ar =>
      cases rgpus with
      | nil => rfl
      | cons g0 grest =>
        exact releaseGpus_frame ar (g0 :: grest) gs a i (h ar rfl)

theorem inv_claim {st st' : Store} {aid now : Nat} {ctx : RunContext}
    (hok : get_next_queued_run st aid now = some (st', ctx))
    (hinv : Inv st) : Inv st' := by
  obtain ⟨hnodup, hrok, hdisj⟩ := hinv
  obtain ⟨j, r, -, -, hr, hq, -, -, -, hst⟩ := get_next_some_inv hok
  subst hst
  obtain ⟨l1, l2, hrs, -, -, hupd⟩ := updateRunFirst_decomp hr
    (fun x => { x with state := .running, startedAt := some now })
  have hrm : r ∈ st.runs := hrs ▸ List.mem_append_right _ (List.mem_cons_self _ _)
  have hrnt : r.state.isTerminal = false := by rw [hq]; rfl
  refine ⟨?_, ?_, ?_⟩
  · show ((updateRunFirst st.runs j.runId
      (fun x => { x with state := .running, startedAt := some now })).map RunRow.id).Nodup
    rw [updateRunFirst_map_id st.runs j.runId
      (fun x => { x with state := .running, startedAt := some now }) (fun x => rfl)]
    exact hnodup
  · show RunsOk (updateRunFirst st.runs j.runId
      (fun x => { x with state := .running, startedAt := some now })) st.gpus
    intro x hx hnt i hi
    rw [hupd] at hx
    rcases List.mem_append.mp hx with hx1 | hx2
    · exact hrok x (hrs ▸ List.mem_append_left _ hx1) hnt i hi
    · rcases List.mem_cons.mp hx2 with rfl | hx2'
      · exact hrok r hrm hrnt i hi
      · exact hrok x (hrs ▸ List.mem_append_right _ (List.mem_cons_of_mem _ hx2')) hnt i hi
  · show DisjointRuns (updateRunFirst st.runs j.runId
      (fun x => { x with state := .running, startedAt := some now }))
    refine disjointRuns_transfer ?_ hdisj
    intro x hx
    rw [hupd] at hx
    rcases List.mem_append.mp hx with hx1 | hx2
    · exact ⟨x, hrs ▸ List.mem_append_left _ hx1, rfl, rfl, rfl, fun h => h⟩
    · rcases List.mem_cons.mp hx2 with rfl | hx2'
      · exact ⟨r, hrm, rfl, rfl, rfl, fun _ => hrnt⟩
      · exact ⟨x, hrs ▸ List.mem_append_right _ (List.mem_cons_of_mem _ hx2'), rfl, rfl,
          rfl, fun h => h⟩

theorem inv_finalize {st : Store} {rid : Nat} {r : RunRow} (snew : RunState)
    (ts : Nat) (jbs : List JobRow)
    (hfind : findRun st.runs rid = some r)
    (hterm : snew.isTerminal = true)
    (hntr : r.state.isTerminal = false)
    (hinv : Inv st) :
    Inv { runs := updateRunFirst st.runs rid
            (fun x => { x with state := snew, finishedAt := some ts }),
          jobs := jbs,
          gpus := releaseRunGpus st.gpus r } := by
  obtain ⟨hnodup, hrok, hdisj⟩ := hinv
  obtain ⟨l1, l2, hrs, -, -, hupd⟩ := updateRunFirst_decomp hfind
    (fun x => { x with state := snew, finishedAt := some ts })
  have hrm : r ∈ st.runs := hrs ▸ List.mem_append_right _ (List.mem_cons_self _ _)
  have hsplitnodup : ((l1 ++ r :: l2).map RunRow.id).Nodup := hrs ▸ hnodup
  refine ⟨?_, ?_, ?_⟩
  · show ((updateRunFirst st.runs rid
      (fun x => { x with state := snew, finishedAt := some ts })).map RunRow.id).Nodup
    rw [updateRunFirst_map_id st.runs rid
      (fun x => { x with state := snew, finishedAt := some ts }) (fun x => rfl)]
    exact hnodup
  · show RunsOk (updateRunFirst st.runs rid
      (fun x => { x with state := snew, finishedAt := some ts })) (releaseRunGpus st.gpus r)
    intro x hx hnt i hi
    rw [hupd] at hx
    have hxold : x ∈ l1 ∨ x ∈ l2 := by
      rcases List.mem_append.mp hx with hx1 | hx2
      · exact Or.inl hx1
      · rcases List.mem_cons.mp hx2 with rfl | hx2'
        · rw [show ({ r with state := snew, finishedAt := some ts } : RunRow).state.isTerminal
              = snew.isTerminal from rfl, hterm] at hnt
          cases hnt
        · exact Or.inr hx2'
    have hxs : x ∈ st.runs := by
      rcases hxold with hx1 | hx2
      · exact hrs ▸ List.mem_append_left _ hx1
      · exact hrs ▸ List.mem_append_right _ (List.mem_cons_of_mem _ hx2)
    obtain ⟨a, ha, hal⟩ := hrok x hxs hnt i hi
    refine ⟨a, ha, ?_⟩
    rw [releaseRunGpus_frame st.gpus r a i ?_]
    · exact hal
    · intro ar har hc
      obtain ⟨haar, hir⟩ := hc
      subst haar
      exact hdisj x hxs r hrm (nodup_split_ne hsplitnodup x hxold) hnt hntr
        a i ha har hi hir
  · show DisjointRuns (updateRunFirst st.runs rid
      (fun x => { x with state := snew, finishedAt := some ts }))
    refine disjointRuns_transfer ?_ hdisj
    intro x hx
    rw [hupd] at hx
    rcases List.mem_append.mp hx with hx1 | hx2
    · exact ⟨x, hrs ▸ List.mem_append_left _ hx1, rfl, rfl, rfl, fun h => h⟩
    · rcases List.mem_cons.mp hx2 with rfl | hx2'
      · refine ⟨r, hrm, rfl, rfl, rfl, fun h => ?_⟩
        rw [show ({ r with state := snew, finishedAt := some ts } : RunRow).state.isTerminal
            = snew.isTerminal from rfl, hterm] at h
        cases h
      · exact ⟨x, hrs ▸ List.mem_append_right _ (List.mem_cons_of_mem _ hx2'), rfl, rfl,
          rfl, fun h => h⟩

theorem inv_cancel {st st' : Store} {s : RunState} {rid now : Nat}
    (hok : cancel_run st rid now = .ok (st', s)) (hinv : Inv st) : Inv st' := by
  cases hf : findRun st.runs rid with
  | none => rw [cancel_run, hf] at hok; cases hok
  | some r =>
    by_cases ht : r.state.isTerminal = true
    · simp only [cancel_run, hf, ht, if_true, Except.ok.injEq, Prod.mk.injEq] at hok
      rw [← hok.1]
      exact hinv
    · have ht' : r.state.isTerminal = false := by
        cases htt : r.state.isTerminal with
        | true => exact absurd htt ht
        | false => rfl
      simp only [cancel_run, hf, ht', Bool.false_eq_true, if_false,
        Except.ok.injEq, Prod.mk.injEq] at hok
      rw [← hok.1]
      exact inv_finalize .canceled now st.jobs hf rfl ht' hinv

theorem inv_finish {st st' : Store} {s : RunState} {rid : Nat} {success : Bool}
    {now : Nat}
    (hnt : ∀ r, findRun st.runs rid = some r → r.state.isTerminal = false)
    (hok : finish_run st rid success now = .ok (st', s)) (hinv : Inv st) : Inv st' := by
  cases hf : findRun st.runs rid with
  | none => rw [finish_run, hf] at hok; cases hok
  | some r =>
    simp only [finish_run, hf, Except.ok.injEq, Prod.mk.injEq] at hok
    cases success with
    | true =>
      simp only [if_true, RunState.isTerminal] at hok
      rw [← hok.1]
      exact inv_finalize .succeeded now st.jobs hf rfl (hnt r hf) hinv
    | false =>
      simp only [Bool.false_eq_true, if_false, RunState.isTerminal] at hok
      rw [← hok.1]
      exact inv_finalize .failed now st.jobs hf rfl (hnt r hf) hinv

theorem inv_markState {st st' : Store} {rid : Nat} {s : RunState} {now : Nat}
    (hterm : s.isTerminal = true)
    (hnt : ∀ r, findRun st.runs rid = some r → r.state.isTerminal = false)
    (hok : update_run_state st rid s now = (st', true)) (hinv : Inv st) : Inv st' := by
  cases hf : findRun st.runs rid with
  | none =>
    simp only [update_run_state, hf] at hok
    exact absurd (congrArg Prod.snd hok) Bool.false_ne_true
  | some r =>
    simp only [update_run_state, hf, hterm, if_true, Prod.mk.injEq] at hok
    rw [← hok.1]
    exact inv_finalize s now st.jobs hf hterm (hnt r hf) hinv

theorem reachableGuarded_inv {st : Store} (h : ReachableGuarded st) : Inv st := by
  induction h with
  | init gpus0 hfree =>
    refine ⟨by simp, ?_, ?_⟩
    · intro r hr
      cases hr
    · intro r1 h1
      cases h1
  | create runId jobId agentId gpuIndices priority now hst hfresh hok ih =>
    exact inv_create hfresh hok ih
  | claim aid now hst hok ih => exact inv_claim hok ih
  | cancel rid now hst hok ih => exact inv_cancel hok ih
  | finish rid success now hst hnt hok ih => exact inv_finish hnt hok ih
  | markState rid s now hst hterm hnt hok ih => exact inv_markState hterm hnt hok ih

/-- **C1 amended**: over every sequence of reservations (at Run
creation), claims, and terminal-state transitions *applied to runs that
are not already terminal* (the guard `cancel_run` enforces; `finish_run`
and `_update_run_state` do not), every GPU is held allocated by at most
one non-terminal Run. -/
theorem no_double_allocation_guarded :
    ∀ st, ReachableGuarded st → AtMostOneHolder st :=
  fun _ h => inv_atMostOne (reachableGuarded_inv h)

/-- Counterexample to C1 as stated: along a code-reachable sequence of
create / finish / create / re-finish / create operations (`finish_run`
accepts a run that is already terminal and re-releases its GPUs), runs 2
and 3 are simultaneously non-terminal and both hold GPU (1,0) with its
allocation flag set. -/
theorem no_double_allocation_cex : ¬ (∀ st, Reachable st → AtMostOneHolder st) := by
  intro hclaim
  have h0 : Reachable cexSt0 := Reachable.init [⟨1, 0, false⟩] (by decide)
  have h1 : Reachable cexSt1 := Reachable.create 1 101 (some 1) [0] 0 0 h0 (by decide)
    (by decide : create_run_from_config cexSt0 1 101 (some 1) [0] 0 0 = .ok cexSt1)
  have h2 : Reachable cexSt2 := Reachable.finish 1 true 1 h1
    (by decide : finish_run cexSt1 1 true 1 = .ok (cexSt2, RunState.succeeded))
  have h3 : Reachable cexSt3 := Reachable.create 2 102 (some 1) [0] 0 2 h2 (by decide)
    (by decide : create_run_from_config cexSt2 2 102 (some 1) [0] 0 2 = .ok cexSt3)
  have h4 : Reachable cexSt4 := Reachable.finish 1 true 3 h3
    (by decide : finish_run cexSt3 1 true 3 = .ok (cexSt4, RunState.succeeded))
  have h5 : Reachable cexSt5 := Reachable.create 3 103 (some 1) [0] 0 4 h4 (by decide)
    (by decide : create_run_from_config cexSt4 3 103 (some 1) [0] 0 4 = .ok cexSt5)
  have hcontra := hclaim cexSt5 h5 1 0
    ⟨2, .queued, some 1, [0], none, none⟩ ⟨3, .queued, some 1, [0], none, none⟩
    (by decide) (by decide)
    ⟨by decide, by decide, by decide, by decide⟩
    ⟨by decide, by decide, by decide, by decide⟩
  exact absurd hcontra (by decide)

/-- Witness for the amended C1: the invariant holds at the guarded-trace
state reached by create, claim, cancel. -/
theorem no_double_allocation_guarded_witness : AtMostOneHolder cexCanceled :=
  no_double_allocation_guarded cexCanceled
    (ReachableGuarded.cancel 1 11
      (ReachableGuarded.claim 1 10
        (ReachableGuarded.create 1 101 (some 1) [0] 0 0
          (ReachableGuarded.init [⟨1, 0, false⟩] (by decide))
          (by decide)
          (by decide : create_run_from_config cexSt0 1 101 (some 1) [0] 0 0 = .ok cexSt1))
        (by decide : get_next_queued_run cexSt1 1 10 = some (cexClaimed, ⟨1, [0]⟩)))
      (by decide : cancel_run cexClaimed 1 11 = .ok (cexCanceled, RunState.canceled)))

/-! ## Lemmas: the dispatcher's dict operations -/

theorem alGet_cons {α : Type} (x : String × α) (l : List (String × α)) (k : String) :
    alGet (x :: l) k = if x.1 = k then some x.2 else alGet l k := by
  by_cases h : x.1 = k <;> simp [alGet, List.find?_cons, h]

theorem alSet_cons {α : Type} (p : String × α) (l : List (String × α)) (k : String)
    (v : α) :
    alSet (p :: l) k v = if p.1 = k then (k, v) :: l else p :: alSet l k v := rfl

theorem alRemove_cons {α : Type} (p : String × α) (l : List (String × α))
    (k : String) :
    alRemove (p :: l) k = if p.1 = k then alRemove l k else p :: alRemove l k := by
  by_cases h : p.1 = k <;> simp [alRemove, List.filter_cons, h]

theorem alGet_alSet_same {α : Type} (l : List (String × α)) (k : String) (v : α) :
    alGet (alSet l k v) k = some v := by
  induction l with
  | nil => simp [alGet, alSet, List.find?_cons]
  | cons p rest ih =>
    by_cases hp : p.1 = k
    · rw [alSet_cons, if_pos hp, alGet_cons, if_pos rfl]
    · rw [alSet_cons, if_neg hp, alGet_cons, if_neg hp]
      exact ih

theorem alGet_alSet_ne {α : Type} (l : List (String × α)) (k k' : String) (v : α)
    (h : k' ≠ k) :
    alGet (alSet l k v) k' = alGet l k' := by
  induction l with
  | nil =>
    rw [show alSet ([] : List (String × α)) k v = [(k, v)] from rfl, alGet_cons,
      if_neg (fun hc => h hc.symm)]
  | cons p rest ih =>
    by_cases hp : p.1 = k
    · have hp' : ¬ p.1 = k' := by rw [hp]; exact fun hc => h hc.symm
      rw [alSet_cons, if_pos hp, alGet_cons, if_neg (fun hc => h hc.symm),
        alGet_cons, if_neg hp']
    · rw [alSet_cons, if_neg hp, alGet_cons, alGet_cons, ih]

theorem alGet_alRemove_same {α : Type} (l : List (String × α)) (k : String) :
    alGet (alRemove l k) k = none := by
  induction l with
  | nil => rfl
  | cons p rest ih =>
    by_cases hp : p.1 = k
    · rw [alRemove_cons, if_pos hp]
      exact ih
    · rw [alRemove_cons, if_neg hp, alGet_cons, if_neg hp]
      exact ih

theorem alGet_alRemove_ne {α : Type} (l : List (String × α)) (k k' : String)
    (h : k' ≠ k) :
    alGet (alRemove l k) k' = alGet l k' := by
  induction l with
  | nil => rfl
  | cons p rest ih =>
    by_cases hp : p.1 = k
    · have hp' : ¬ p.1 = k' := by rw [hp]; exact fun hc => h hc.symm
      rw [alRemove_cons, if_pos hp, alGet_cons, if_neg hp', ih]
    · rw [alRemove_cons, if_neg hp, alGet_cons, alGet_cons, ih]

theorem mem_alSet {α : Type} {l : List (String × α)} {k : String} {v : α}
    {p : String × α} (hp : p ∈ alSet l k v) : p ∈ l ∨ p = (k, v) := by
  induction l with
  | nil => simpa [alSet] using hp
  | cons q rest ih =>
    by_cases hq : q.1 = k
    · simp only [alSet, hq, if_true] at hp
      rcases List.mem_cons.mp hp with rfl | hm
      · exact Or.inr rfl
      · exact Or.inl (List.mem_cons_of_mem _ hm)
    · simp only [alSet, hq, if_false] at hp
      rcases List.mem_cons.mp hp with rfl | hm
      · exact Or.inl (List.mem_cons_self _ _)
      · rcases ih hm with h1 | h2
        · exact Or.inl (List.mem_cons_of_mem _ h1)
        · exact Or.inr h2

theorem alGet_some_mem {α : Type} {l : List (String × α)} {k : String} {v : α}
    (h : alGet l k = some v) : (k, v) ∈ l := by
  induction l with
  | nil => cases h
  | cons p rest ih =>
    by_cases hp : p.1 = k
    · have : p.2 = v := by simpa [alGet, List.find?_cons, hp] using h
      have hpv : p = (k, v) := Prod.ext hp this
      exact hpv ▸ List.mem_cons_self _ _
    · have h' : alGet rest k = some v := by simpa [alGet, List.find?_cons, hp] using h
      exact List.mem_cons_of_mem _ (ih h')

theorem alGet_none_keys {α : Type} {l : List (String × α)} {k : String}
    (h : alGet l k = none) : ∀ p ∈ l, p.1 ≠ k := by
  induction l with
  | nil => intro p hp; cases hp
  | cons q rest ih =>
    by_cases hq : q.1 = k
    · simp [alGet, List.find?_cons, hq] at h
    · intro p hp
      rcases List.mem_cons.mp hp with rfl | hm
      · exact hq
      · exact ih (by simpa [alGet, List.find?_cons, hq] using h) p hm

theorem alRemove_none_of_none {α : Type} (l : List (String × α)) (r j : String)
    (h : alGet l j = none) : alGet (alRemove l r) j = none := by
  by_cases hj : j = r
  · rw [hj]; exact alGet_alRemove_same l r
  · rw [alGet_alRemove_ne l r j hj]; exact h

/-! ## Lemmas: cache lifecycle and the idle sweeper -/

theorem get_or_create_lastPing (st : TBState) (rid logdir : String) :
    ((get_or_create_tb_app st rid logdir).1).lastPing = st.lastPing := by
  unfold get_or_create_tb_app
  cases alGet st.apps rid with
  | none => rfl
  | some app =>
    by_cases h : alGet st.appLogdirs rid = some logdir
    · simp [h]
    · simp [h]

theorem get_or_create_apps_isSome (st : TBState) (rid logdir j : String)
    (h : (alGet st.apps j).isSome) :
    (alGet ((get_or_create_tb_app st rid logdir).1).apps j).isSome := by
  unfold get_or_create_tb_app
  cases alGet st.apps rid with
  | none =>
    by_cases hj : j = rid
    · subst hj; simp [alGet_alSet_same]
    · simpa [alGet_alSet_ne st.apps rid j st.nextToken hj] using h
  | some app =>
    by_cases hl : alGet st.appLogdirs rid = some logdir
    · simpa [hl] using h
    · by_cases hj : j = rid
      · subst hj; simp [hl, alGet_alSet_same]
      · simpa [hl, alGet_alSet_ne st.apps rid j st.nextToken hj] using h

theorem evictOne_lastPing (st : TBState) (r : String) :
    (evictOne st r).lastPing = alRemove st.lastPing r := by
  by_cases h : (alGet st.apps r).isSome <;> simp [evictOne, h]

theorem evictOne_apps_ne (st : TBState) (r j : String) (h : r ≠ j) :
    alGet (evictOne st r).apps j = alGet st.apps j := by
  by_cases hs : (alGet st.apps r).isSome <;>
    simp [evictOne, hs, alGet_alRemove_ne _ _ _ (Ne.symm h)]

theorem evictOne_ingesters_ne (st : TBState) (r j : String) (h : r ≠ j) :
    alGet (evictOne st r).appIngesters j = alGet st.appIngesters j := by
  by_cases hs : (alGet st.apps r).isSome <;>
    simp [evictOne, hs, alGet_alRemove_ne _ _ _ (Ne.symm h)]

theorem evictOne_apps_evicted (st : TBState) (j : String) :
    alGet (evictOne st j).apps j = none := by
  by_cases hs : (alGet st.apps j).isSome
  · simp [evictOne, hs, alGet_alRemove_same]
  · simp only [evictOne, hs, if_false]
    exact Option.not_isSome_iff_eq_none.mp hs

theorem evictOne_apps_absent (st : TBState) (r j : String)
    (h : alGet st.apps j = none) : alGet (evictOne st r).apps j = none := by
  by_cases hj : r = j
  · subst hj; exact evictOne_apps_evicted st r
  · rw [evictOne_apps_ne st r j hj]; exact h

theorem evictOne_stopped_mono (st : TBState) (r : String) {g : Nat}
    (h : g ∈ st.stopped) : g ∈ (evictOne st r).stopped := by
  by_cases hs : (alGet st.apps r).isSome
  · simp only [evictOne, hs, if_true]
    cases hing : alGet st.appIngesters r with
    | none => exact h
    | some tok => exact List.mem_append_left _ h
  · simpa [evictOne, hs] using h

theorem evictOne_stops (st : TBState) (j : String) (g : Nat)
    (happ : (alGet st.apps j).isSome) (hing : alGet st.appIngesters j = some g) :
    g ∈ (evictOne st j).stopped := by
  simp only [evictOne, happ, if_true, hing]
  exact List.mem_append_right _ (List.mem_singleton.mpr rfl)

theorem foldl_evict_lastPing_subset (rids : List String) :
    ∀ (st : TBState) (p : String × Int),
      p ∈ ((rids.foldl evictOne st).lastPing) → p ∈ st.lastPing := by
  induction rids with
  | nil => intro st p hp; exact hp
  | cons r rest ih =>
    intro st p hp
    have := ih (evictOne st r) p hp
    rw [evictOne_lastPing] at this
    exact List.mem_of_mem_filter this

theorem foldl_evict_lastPing_get (rids : List String) (j : String) :
    ∀ (st : TBState), j ∉ rids →
      alGet ((rids.foldl evictOne st).lastPing) j = alGet st.lastPing j := by
  induction rids with
  | nil => intro st _; rfl
  | cons r rest ih =>
    intro st hj
    have hjr : j ≠ r := fun hc => hj (hc ▸ List.mem_cons_self _ _)
    have hjrest : j ∉ rest := fun hc => hj (List.mem_cons_of_mem _ hc)
    rw [List.foldl_cons, ih (evictOne st r) hjrest, evictOne_lastPing,
      alGet_alRemove_ne _ _ _ hjr]

theorem foldl_evict_apps_get (rids : List String) (j : String) :
    ∀ (st : TBState), j ∉ rids →
      alGet ((rids.foldl evictOne st).apps) j = alGet st.apps j := by
  induction rids with
  | nil => intro st _; rfl
  | cons r rest ih =>
    intro st hj
    have hjr : r ≠ j := fun hc => hj (hc ▸ List.mem_cons_self _ _)
    have hjrest : j ∉ rest := fun hc => hj (List.mem_cons_of_mem _ hc)
    rw [List.foldl_cons, ih (evictOne st r) hjrest, evictOne_apps_ne st r j hjr]

theorem foldl_evict_absent (rids : List String) (j : String) :
    ∀ (st : TBState), alGet st.apps j = none → alGet st.lastPing j = none →
      alGet ((rids.foldl evictOne st).apps) j = none
      ∧ alGet ((rids.foldl evictOne st).lastPing) j = none := by
  induction rids with
  | nil => intro st h1 h2; exact ⟨h1, h2⟩
  | cons r rest ih =>
    intro st h1 h2
    refine ih (evictOne st r) (evictOne_apps_absent st r j h1) ?_
    rw [evictOne_lastPing]
    exact alRemove_none_of_none st.lastPing r j h2

theorem foldl_evict_removes (rids : List String) (j : String) :
    ∀ (st : TBState), j ∈ rids →
      alGet ((rids.foldl evictOne st).apps) j = none
      ∧ alGet ((rids.foldl evictOne st).lastPing) j = none := by
  induction rids with
  | nil => intro st hj; cases hj
  | cons r rest ih =>
    intro st hj
    by_cases hjr : j = r
    · subst hjr
      have h1 : alGet (evictOne st j).apps j = none := evictOne_apps_evicted st j
      have h2 : alGet (evictOne st j).lastPing j = none := by
        rw [evictOne_lastPing]; exact alGet_alRemove_same _ _
      by_cases hrest : j ∈ rest
      · exact ih (evictOne st j) hrest
      · exact foldl_evict_absent rest j (evictOne st j) h1 h2
    · have hm : j ∈ rest := by
        rcases List.mem_cons.mp hj with hc | hm
        · exact absurd hc hjr
        · exact hm
      exact ih (evictOne st r) hm

theorem foldl_evict_stopped_mono (rids : List String) (g : Nat) :
    ∀ (st : TBState), g ∈ st.stopped → g ∈ ((rids.foldl evictOne st).stopped) := by
  induction rids with
  | nil => intro st h; exact h
  | cons r rest ih =>
    intro st h
    exact ih (evictOne st r) (evictOne_stopped_mono st r h)

theorem foldl_evict_stops (rids : List String) (j : String) (g : Nat) :
    ∀ (st : TBState), j ∈ rids →
      (alGet st.apps j).isSome → alGet st.appIngesters j = some g →
      g ∈ ((rids.foldl evictOne st).stopped) := by
  induction rids with
  | nil => intro st hj; cases hj
  | cons r rest ih =>
    intro st hj happ hing
    by_cases hjr : j = r
    · subst hjr
      exact foldl_evict_stopped_mono rest g (evictOne st j)
        (evictOne_stops st j g happ hing)
    · have hm : j ∈ rest := by
        rcases List.mem_cons.mp hj with hc | hm
        · exact absurd hc hjr
        · exact hm
      refine ih (evictOne st r) hm ?_ ?_
      · rw [evictOne_apps_ne st r j (fun hc => hjr hc.symm)]; exact happ
      · rw [evictOne_ingesters_ne st r j (fun hc => hjr hc.symm)]; exact hing

theorem mem_sweep_targets {st : TBState} {j : String} {tp : Int}
    (now idleTimeout : Int)
    (h : alGet st.lastPing j = some tp) (hlate : now - tp > idleTimeout) :
    j ∈ (st.lastPing.filter (fun p => now - p.2 > idleTimeout)).map
      (fun p => p.1) := by
  refine List.mem_map.mpr ⟨(j, tp), ?_, rfl⟩
  exact List.mem_filter.mpr ⟨alGet_some_mem h, by simpa using hlate⟩

theorem not_mem_sweep_targets {st : TBState} {j : String} {tp now idleTimeout : Int}
    (hall : ∀ p ∈ st.lastPing, p.1 = j → p.2 = tp) (hearly : now - tp ≤ idleTimeout) :
    j ∉ (st.lastPing.filter (fun p => now - p.2 > idleTimeout)).map
      (fun p => p.1) := by
  intro hmem
  obtain ⟨p, hpf, hpj⟩ := List.mem_map.mp hmem
  have hpl := List.mem_filter.mp hpf
  have hv : p.2 = tp := hall p hpl.1 hpj
  have : now - p.2 > idleTimeout := by simpa using hpl.2
  rw [hv] at this
  omega

theorem not_mem_sweep_targets_of_no_ping {st : TBState} {j : String}
    {now idleTimeout : Int} (h : alGet st.lastPing j = none) :
    j ∉ (st.lastPing.filter (fun p => now - p.2 > idleTimeout)).map
      (fun p => p.1) := by
  intro hmem
  obtain ⟨p, hpf, hpj⟩ := List.mem_map.mp hmem
  exact alGet_none_keys h p (List.mem_of_mem_filter hpf) hpj

theorem tbRun_ping_stable (t : Int) (j : String) (tp : Int) :
    ∀ (es : List TBEvent) (st : TBState),
      alGet st.lastPing j = some tp →
      (∀ p ∈ st.lastPing, p.1 = j → p.2 = tp) →
      (∀ e ∈ es, eventKeepsPending j tp t e = true) →
      alGet (tbRun t st es).lastPing j = some tp
      ∧ ∀ p ∈ (tbRun t st es).lastPing, p.1 = j → p.2 = tp := by
  intro es
  induction es with
  | nil => intro st h1 h2 _; exact ⟨h1, h2⟩
  | cons e rest ih =>
    intro st h1 h2 hok
    have hoke : eventKeepsPending j tp t e = true := hok e (List.mem_cons_self _ _)
    have hokr : ∀ e' ∈ rest, eventKeepsPending j tp t e' = true :=
      fun e' he' => hok e' (List.mem_cons_of_mem _ he')
    refine ih (tbStep t st e) ?_ ?_ hokr
    · cases e with
      | heartbeat rid τ =>
        have hne : rid ≠ j := by simpa [eventKeepsPending] using hoke
        show alGet (alSet st.lastPing rid τ) j = some tp
        rw [alGet_alSet_ne st.lastPing rid j τ (fun hc => hne hc.symm)]
        exact h1
      | request rid logdir =>
        show alGet ((get_or_create_tb_app st rid logdir).1).lastPing j = some tp
        rw [get_or_create_lastPing]
        exact h1
      | sweepAt τ =>
        have hearly : τ - tp ≤ t := by simpa [eventKeepsPending] using hoke
        show alGet (sweep st τ t).lastPing j = some tp
        rw [sweep, foldl_evict_lastPing_get _ j st (not_mem_sweep_targets h2 hearly)]
        exact h1
    · cases e with
      | heartbeat rid τ =>
        have hne : rid ≠ j := by simpa [eventKeepsPending] using hoke
        intro p hp hpj
        rcases mem_alSet hp with hm | rfl
        · exact h2 p hm hpj
        · exact absurd hpj hne
      | request rid logdir =>
        intro p hp hpj
        rw [show (tbStep t st (TBEvent.request rid logdir)).lastPing = st.lastPing
          from get_or_create_lastPing st rid logdir] at hp
        exact h2 p hp hpj
      | sweepAt τ =>
        intro p hp hpj
        exact h2 p (foldl_evict_lastPing_subset _ st p hp) hpj

/-- **C8**: after a heartbeat for job `j` at time `tp`, if every following
event is heartbeat-free for `j` and every intermediate sweeper wake is at
or before the idle deadline (the first post-deadline wake occurs within
one sweep interval), then that first sweep past `tp + idle_timeout`
removes `j`'s cached handler and its liveness record, after signalling
`j`'s data ingester to stop; request traffic may occur freely in between
because serving a request never touches `_last_ping`. -/
theorem dispatcher_idle_eviction :
    (∀ (t : Int) (st : TBState) (j : String) (tp : Int) (es : List TBEvent)
        (tSweep : Int),
        alGet st.lastPing j = some tp →
        (∀ p ∈ st.lastPing, p.1 = j → p.2 = tp) →
        (∀ e ∈ es, eventKeepsPending j tp t e = true) →
        tSweep - tp > t →
        alGet (sweep (tbRun t st es) tSweep t).apps j = none
        ∧ alGet (sweep (tbRun t st es) tSweep t).lastPing j = none
        ∧ ∀ g, (alGet (tbRun t st es).apps j).isSome →
            alGet (tbRun t st es).appIngesters j = some g →
            g ∈ (sweep (tbRun t st es) tSweep t).stopped)
  ∧ (∀ (st : TBState) (rid logdir : String),
        ((get_or_create_tb_app st rid logdir).1).lastPing = st.lastPing) := by
  refine ⟨?_, get_or_create_lastPing⟩
  intro t st j tp es tSweep h1 h2 hes hlate
  obtain ⟨hping, hall⟩ := tbRun_ping_stable t j tp es st h1 h2 hes
  have hmem := mem_sweep_targets tSweep t hping hlate
  obtain ⟨happs, hlast⟩ := foldl_evict_removes _ j (tbRun t st es) hmem
  exact ⟨happs, hlast, fun g hsome hing =>
    foldl_evict_stops _ j g (tbRun t st es) hmem hsome hing⟩

/-- Witness for C8 at a concrete state: one cached app for `"job123"`
heartbeat at 0, a request and an on-time sweep in between, idle timeout
60, final sweep at 100. -/
theorem dispatcher_idle_eviction_witness :
    alGet (sweep (tbRun 60 tbDemo
        [TBEvent.request "job123" "runs/a", TBEvent.sweepAt 50,
         TBEvent.heartbeat "other" 55]) 100 60).apps "job123" = none
    ∧ alGet (sweep (tbRun 60 tbDemo
        [TBEvent.request "job123" "runs/a", TBEvent.sweepAt 50,
         TBEvent.heartbeat "other" 55]) 100 60).lastPing "job123" = none
    ∧ ∀ g, (alGet (tbRun 60 tbDemo
          [TBEvent.request "job123" "runs/a", TBEvent.sweepAt 50,
           TBEvent.heartbeat "other" 55]).apps "job123").isSome →
        alGet (tbRun 60 tbDemo
          [TBEvent.request "job123" "runs/a", TBEvent.sweepAt 50,
           TBEvent.heartbeat "other" 55]).appIngesters "job123" = some g →
        g ∈ (sweep (tbRun 60 tbDemo
          [TBEvent.request "job123" "runs/a", TBEvent.sweepAt 50,
           TBEvent.heartbeat "other" 55]) 100 60).stopped :=
  dispatcher_idle_eviction.1 60 tbDemo "job123" 0
    [TBEvent.request "job123" "runs/a", TBEvent.sweepAt 50,
     TBEvent.heartbeat "other" 55] 100
    (by decide) (by decide) (by decide) (by decide)

/-- **C10**: a cached handler whose job id has no recorded heartbeat is
never evicted — the sweeper iterates only over `_last_ping`, and neither
`get_or_create_tb_app` nor request traffic writes to `_last_ping` — so
over any heartbeat-free event sequence the cache entry persists. -/
theorem never_heartbeated_persists :
    (∀ (t : Int) (st : TBState) (j : String) (es : List TBEvent),
        (alGet st.apps j).isSome →
        alGet st.lastPing j = none →
        (∀ e ∈ es, noHeartbeatFor j e = true) →
        (alGet (tbRun t st es).apps j).isSome
        ∧ alGet (tbRun t st es).lastPing j = none)
  ∧ (∀ (st : TBState) (rid logdir : String),
        ((get_or_create_tb_app st rid logdir).1).lastPing = st.lastPing) := by
  refine ⟨?_, get_or_create_lastPing⟩
  intro t st j es
  induction es generalizing st with
  | nil => intro h1 h2 _; exact ⟨h1, h2⟩
  | cons e rest ih =>
    intro h1 h2 hok
    have hoke : noHeartbeatFor j e = true := hok e (List.mem_cons_self _ _)
    have hokr : ∀ e' ∈ rest, noHeartbeatFor j e' = true :=
      fun e' he' => hok e' (List.mem_cons_of_mem _ he')
    refine ih (tbStep t st e) ?_ ?_ hokr
    · cases e with
      | heartbeat rid τ => exact h1
      | request rid logdir => exact get_or_create_apps_isSome st rid logdir j h1
      | sweepAt τ =>
        show (alGet (sweep st τ t).apps j).isSome
        rw [sweep, foldl_evict_apps_get _ j st (not_mem_sweep_targets_of_no_ping h2)]
        exact h1
    · cases e with
      | heartbeat rid τ =>
        have hne : rid ≠ j := by simpa [noHeartbeatFor] using hoke
        show alGet (alSet st.lastPing rid τ) j = none
        rw [alGet_alSet_ne st.lastPing rid j τ (fun hc => hne hc.symm)]
        exact h2
      | request rid logdir =>
        show alGet ((get_or_create_tb_app st rid logdir).1).lastPing j = none
        rw [get_or_create_lastPing]
        exact h2
      | sweepAt τ =>
        show alGet (sweep st τ t).lastPing j = none
        rw [sweep, foldl_evict_lastPing_get _ j st (not_mem_sweep_targets_of_no_ping h2)]
        exact h2

/-- Witness for C10: a cached app for `"x"` with no heartbeat record
survives two sweeps and a request. -/
theorem never_heartbeated_persists_witness :
    (alGet (tbRun 60 ⟨[("x", 0)], [("x", "d")], [("x", 0)], [], 1, []⟩
        [TBEvent.sweepAt 1000, TBEvent.request "x" "d",
         TBEvent.sweepAt 2000]).apps "x").isSome
    ∧ alGet (tbRun 60 ⟨[("x", 0)], [("x", "d")], [("x", 0)], [], 1, []⟩
        [TBEvent.sweepAt 1000, TBEvent.request "x" "d",
         TBEvent.sweepAt 2000]).lastPing "x" = none :=
  never_heartbeated_persists.1 60 ⟨[("x", 0)], [("x", "d")], [("x", 0)], [], 1, []⟩
    "x" [TBEvent.sweepAt 1000, TBEvent.request "x" "d", TBEvent.sweepAt 2000]
    (by decide) (by decide) (by decide)

/-! ## Lemmas: dispatcher path handling -/

theorem splitSlash_no_slash :
    ∀ (cs acc : List Char), '/' ∉ cs → splitSlash cs acc = [acc.reverse ++ cs] := by
  intro cs
  induction cs with
  | nil => intro acc _; simp [splitSlash]
  | cons c rest ih =>
    intro acc h
    have hc : ¬ c = '/' := by
      intro hc
      exact h (by rw [hc]; exact List.mem_cons_self _ _)
    have hr : '/' ∉ rest := fun hm => h (List.mem_cons_of_mem _ hm)
    simp [splitSlash, hc, ih (c :: acc) hr]

theorem pathParts_single (jid : List Char) (hne : jid ≠ []) (hns : '/' ∉ jid) :
    pathParts ('/' :: jid) = [jid] := by
  rw [pathParts,
    show splitSlash ('/' :: jid) [] = [] :: splitSlash jid [] from by
      simp [splitSlash],
    splitSlash_no_slash jid [] hns]
  simp [List.filter, hne]

theorem mem_of_getLast : ∀ {l : List Char} {c : Char}, l.getLast? = some c → c ∈ l := by
  intro l
  induction l with
  | nil => intro c h; cases h
  | cons x xs ih =>
    intro c h
    cases xs with
    | nil =>
      have : x = c := by simpa [List.getLast?] using h
      rw [this]; exact List.mem_cons_self _ _
    | cons y ys =>
      rw [List.getLast?_cons_cons] at h
      exact List.mem_cons_of_mem _ (ih h)

theorem endsWithSlash_single (jid : List Char) (hne : jid ≠ []) (hns : '/' ∉ jid) :
    endsWithSlash ('/' :: jid) = false := by
  have hcast : ('/' :: jid).getLast? = jid.getLast? := by
    cases jid with
    | nil => exact absurd rfl hne
    | cons x xs => exact List.getLast?_cons_cons
  rw [endsWithSlash, hcast]
  cases hl : jid.getLast? with
  | none => rfl
  | some c =>
    have hc : c ∈ jid := mem_of_getLast hl
    have : ¬ c = '/' := fun hc' => hns (hc' ▸ hc)
    simpa using this

/-- **C9**: a request whose path within the mount is exactly `/{job_id}`
with no trailing slash gets a permanent redirect to `/{job_id}/` under the
same mount (`SCRIPT_NAME`), with the query string appended when nonempty;
concretely `/job123?x=1` under mount `/tb` redirects to `/tb/job123/?x=1`. -/
theorem dispatcher_redirect :
    (∀ (scriptName jid qs : List Char),
        jid ≠ [] → '/' ∉ jid →
        ∀ (resolve : List Char → Option (List Char)) (dirEx : List Char → Bool),
        dispatch scriptName ('/' :: jid) qs resolve dirEx
          = .redirect (if qs ≠ [] then (scriptName ++ '/' :: jid ++ ['/']) ++ '?' :: qs
                       else scriptName ++ '/' :: jid ++ ['/']))
  ∧ dispatch "/tb".data "/job123".data "x=1".data (fun _ => none) (fun _ => false)
      = .redirect "/tb/job123/?x=1".data := by
  constructor
  · intro scriptName jid qs hne hns resolve dirEx
    simp only [dispatch, if_neg (show ¬ ('/' :: jid) = [] by simp),
      pathParts_single jid hne hns, endsWithSlash_single jid hne hns]
    simp
  · decide

/-- Witness for C9 at mount `/tb`, job id `x`, query `q=1`. -/
theorem dispatcher_redirect_witness :
    dispatch "/tb".data ('/' :: ['x']) "q=1".data (fun _ => none) (fun _ => false)
      = .redirect (if "q=1".data ≠ [] then
          ("/tb".data ++ '/' :: ['x'] ++ ['/']) ++ '?' :: "q=1".data
        else "/tb".data ++ '/' :: ['x'] ++ ['/']) :=
  dispatcher_redirect.1 "/tb".data ['x'] "q=1".data (by decide) (by decide)
    (fun _ => none) (fun _ => false)

end Aurora
